import Mathlib

/-!
# Verification of the HyperGrid environment (`src/gfn/envs/hypergrid.py`)

Shallow embedding of the `HyperGrid` dataclass and its inner `StatesBatch`
class.  Tensors of shape `(batch, ndim)` become `List (List Int)` (torch
`long` entries), boolean mask tensors become `List (List Bool)`, and the
per-element `already_dones` vector becomes `List Bool`.  The two Python
error kinds that the step functions can surface are modelled explicitly:
`ValueError` (raised by the source when gathered mask entries contain a
`False`) and `RuntimeError` (raised by `torch.gather` itself when an index
is out of range for the gathered dimension).
-/

namespace HyperGridSpec

/-- Configuration of the `HyperGrid` environment: the fields of the
`HyperGrid` dataclass that the dynamics depend on.  `n_actions = ndim + 1`
is derived, as in `__post_init__`.  Reward coefficients are kept as
rationals (exact arithmetic standing for the float computation). -/
structure GridCfg where
  ndim : Nat
  height : Nat
  R0 : ℚ
  R1 : ℚ
  R2 : ℚ
deriving DecidableEq

/-- `n_actions = ndim + 1` (from `HyperGrid.__post_init__`). -/
def GridCfg.n_actions (cfg : GridCfg) : Nat := cfg.ndim + 1

/-- The batched state container: the fields of the inner `StatesBatch`
dataclass (`states`, `masks`, `backward_masks`, `already_dones`). -/
structure StatesBatch where
  states : List (List Int)
  masks : List (List Bool)
  backward_masks : List (List Bool)
  already_dones : List Bool
deriving DecidableEq

/-- The two Python exception kinds observable from `step`/`backward_step`:
`valueError` is `raise ValueError("Actions are not valid")`, and
`runtimeError` is the error `torch.gather` raises when an index is out of
range. -/
inductive PyError where
  | valueError
  | runtimeError
deriving DecidableEq

deriving instance DecidableEq for Except

/-- One row of the forward mask, from `StatesBatch.make_masks`
(hypergrid.py lines 187-208): a row of `n_actions` entries that starts
all-`True` and is set to `False` exactly where
`cat([states == height - 1, zeros(batch, 1)], -1)` is `True`; so column
`d < ndim` is `False` iff coordinate `d` equals `height - 1`, and the last
(stop) column is always `True`. -/
def maskRowF (cfg : GridCfg) (row : List Int) : List Bool :=
  row.map (fun x => x != (cfg.height : Int) - 1) ++ [true]

/-- `StatesBatch.make_masks` applied to a whole states array. -/
def make_masks (cfg : GridCfg) (S : List (List Int)) : List (List Bool) :=
  S.map (maskRowF cfg)

/-- `StatesBatch.make_backward_masks` (hypergrid.py lines 210-222): a row
of `n_actions - 1 = ndim` entries, all `True` except where the coordinate
equals `0`. -/
def make_backward_masks (_cfg : GridCfg) (S : List (List Int)) : List (List Bool) :=
  S.map (fun row => row.map (fun x => x != (0 : Int)))

/-- Boolean-mask selection `xs[~dones]`: keep the entries of `xs` whose
`dones` flag is `false`. -/
def filterByNot {α : Type} (dones : List Bool) (xs : List α) : List α :=
  (dones.zip xs).filterMap (fun p => if p.1 then none else some p.2)

/-- Row-by-row gather of mask entries: `none` models the `RuntimeError`
torch raises when some index is out of range for its row (torch checks
every index during the gather, before `all(...)` runs). -/
def gatherList : List (List Bool × Nat) → Option (List Bool)
  | [] => some []
  | p :: l =>
    match p.1.get? p.2, gatherList l with
    | some e, some es => some (e :: es)
    | _, _ => none

/-- `torch.gather(rows, 1, acts.unsqueeze(1))`: pick entry `acts[i]` from
row `i`. -/
def gatherAll (rows : List (List Bool)) (acts : List Nat) : Option (List Bool) :=
  gatherList (rows.zip acts)

/-- The validation prefix shared by `step` and `backward_step`
(hypergrid.py lines 231-237 and 256-262): gather the mask entries of the
supplied actions (a `RuntimeError` if some index is out of range), then
`raise ValueError` unless all gathered entries are `True`. -/
def validate (rows : List (List Bool)) (acts : List Nat) : Except PyError Unit :=
  match gatherAll rows acts with
  | none => .error .runtimeError
  | some gs => if gs.all (· == true) then .ok () else .error .valueError

/-- `row[j] += 1` at a single coordinate (the fancy-indexed increment of
hypergrid.py line 246, restricted to one row). -/
def incAt (row : List Int) (j : Nat) : List Int :=
  row.set j (row.getD j 0 + 1)

/-- `row[j] -= 1` at a single coordinate (hypergrid.py line 266). -/
def decAt (row : List Int) (j : Nat) : List Int :=
  row.set j (row.getD j 0 - 1)

/-- Modelled from the spec: `AbstractStatesBatch.update_masks`
(gfn/envs/env.py, not under src/) recomputes both mask fields from the
current states — spec §3 "masks are always a pure function of the current
`states` array — they must be recomputed after every mutation" and §4.2
`recompute_masks()`; the commented-out lines 180-181 of hypergrid.py show
the same assignments `masks = make_masks()`, `backward_masks =
make_backward_masks()`. -/
def update_masks (cfg : GridCfg) (b : StatesBatch) : StatesBatch :=
  { b with masks := make_masks cfg b.states,
           backward_masks := make_backward_masks cfg b.states }

/-- `dones = self._state.already_dones | (actions == self.n_actions - 1)`
(hypergrid.py line 239): an element is done after `step` iff it was done
before or its action is the stop action `n_actions - 1 = ndim`. -/
def stepDones (cfg : GridCfg) (b : StatesBatch) (as : List Nat) : List Bool :=
  List.zipWith (fun d a => d || (a == cfg.n_actions - 1)) b.already_dones as

/-- The states array after `step`'s mutation (hypergrid.py lines 242-248):
rows whose element is (newly) done are kept, the others get `+1` at the
action coordinate. -/
def stepStates (cfg : GridCfg) (b : StatesBatch) (as : List Nat) : List (List Int) :=
  List.zipWith
    (fun (p : Bool × List Int) (a : Nat) => if p.1 then p.2 else incAt p.2 a)
    ((stepDones cfg b as).zip b.states) as

/-- `HyperGrid.step` (hypergrid.py lines 230-252).  Validation gathers the
forward-mask entries of the not-yet-done elements at their supplied
actions and fails before any mutation; then `dones := already_dones |
(actions == n_actions - 1)`, the not-(newly-)done rows get `+1` at their
action coordinate, and the masks are recomputed.  Returns the updated
batch together with the `dones` vector. -/
def step (cfg : GridCfg) (b : StatesBatch) (as : List Nat) :
    Except PyError (StatesBatch × List Bool) := do
  validate (filterByNot b.already_dones b.masks) (filterByNot b.already_dones as)
  return (update_masks cfg { states := stepStates cfg b as, masks := b.masks,
                             backward_masks := b.backward_masks,
                             already_dones := stepDones cfg b as },
          stepDones cfg b as)

/-- The states array after `backward_step`'s mutation (hypergrid.py lines
264-268): rows whose element was already done are kept, the others get
`-1` at the action coordinate. -/
def backwardStates (_cfg : GridCfg) (b : StatesBatch) (as : List Nat) : List (List Int) :=
  List.zipWith
    (fun (p : Bool × List Int) (a : Nat) => if p.1 then p.2 else decAt p.2 a)
    (b.already_dones.zip b.states) as

/-- `dones = states.already_dones | (states.states.sum(-1) == 0)`
(hypergrid.py line 270), computed from the states AFTER the decrement. -/
def backwardDones (cfg : GridCfg) (b : StatesBatch) (as : List Nat) : List Bool :=
  List.zipWith (fun d (row : List Int) => d || (row.sum == 0))
    b.already_dones (backwardStates cfg b as)

/-- `HyperGrid.backward_step` (hypergrid.py lines 254-276).  Validation
gathers the backward-mask entries of the not-yet-done elements; the
not-done rows get `-1` at their action coordinate; then
`dones := already_dones | (states.sum(-1) == 0)` is computed from the NEW
states, and the masks are recomputed. -/
def backward_step (cfg : GridCfg) (b : StatesBatch) (as : List Nat) :
    Except PyError (StatesBatch × List Bool) := do
  validate (filterByNot b.already_dones b.backward_masks)
    (filterByNot b.already_dones as)
  return (update_masks cfg { states := backwardStates cfg b as, masks := b.masks,
                             backward_masks := b.backward_masks,
                             already_dones := backwardDones cfg b as },
          backwardDones cfg b as)

/-- `StatesBatch.update_the_dones` (hypergrid.py lines 224-226):
`already_dones = states.sum(-1) == 0`. -/
def update_the_dones (b : StatesBatch) : StatesBatch :=
  { b with already_dones := b.states.map (fun row => row.sum == 0) }

/-- A `StatesBatch` built from a given states array
(`StatesBatch.__post_init__`, hypergrid.py lines 165-182; the zero- and
random-initialized constructions are the special cases of an all-zero,
resp. uniformly drawn, array).  Modelled from the spec:
`AbstractStatesBatch.__post_init__` (gfn/envs/env.py, not under src/)
derives the two mask fields from the states exactly as `update_masks`
does, and initializes `already_dones` to all-`false` — spec §4.2 has
construction "re-enabling them for another forward pass" and the demo
steps a freshly reset batch, so a fresh batch is not done. -/
def fromStates (cfg : GridCfg) (S : List (List Int)) : StatesBatch :=
  { states := S, masks := make_masks cfg S,
    backward_masks := make_backward_masks cfg S,
    already_dones := List.replicate S.length false }

/-- The all-origin batch produced by `env.reset()` with `n` environments:
the zero-initialized construction of `StatesBatch.__post_init__`. -/
def originBatch (cfg : GridCfg) (n : Nat) : StatesBatch :=
  fromStates cfg (List.replicate n (List.replicate cfg.ndim 0))

/-- The environment's internal `_state` after a call to `step`: the
source raises (lines 233-237) before the first assignment to
`self._state` (line 240), so on failure the internal state is the
unchanged input batch. -/
def stepRun (cfg : GridCfg) (b : StatesBatch) (as : List Nat) : StatesBatch :=
  match step cfg b as with
  | .ok r => r.1
  | .error _ => b

/-- Convenience for chaining scenarios: the batch after a successful
`backward_step`, or the unchanged input on failure (the source deepcopies
its input and raises before mutating the copy, lines 255-262). -/
def backwardRun (cfg : GridCfg) (b : StatesBatch) (as : List Nat) : StatesBatch :=
  match backward_step cfg b as with
  | .ok r => r.1
  | .error _ => b

/-- `HyperGrid.get_states_indices` (hypergrid.py lines 293-298):
`canonical_base = height ** arange(ndim-1, -1, -1)` and the returned flat
index is `(canonical_base * states).sum(-1)` — coordinate `i` is weighted
`height ^ (ndim - 1 - i)`. -/
def get_states_indices (cfg : GridCfg) (s : List Int) : Int :=
  (List.zipWith (fun (p : Nat) (x : Int) => ((cfg.height : Int) ^ p) * x)
    ((List.range cfg.ndim).map (fun i => cfg.ndim - 1 - i)) s).sum

/-- `HyperGrid.reward` in the default `reward_cos=False` branch
(hypergrid.py lines 278-291), with exact rational arithmetic standing for
the float computation: `ax = |state/(height-1) - 0.5|` per coordinate and
`reward = R0 + (0.25 < ax).prod(-1) * R1 + ((0.3 < ax)*(ax < 0.4)).prod(-1) * R2`,
the products of per-coordinate 0/1 indicators taken over the coordinate
dimension. -/
def reward (cfg : GridCfg) (s : List Int) : ℚ :=
  let ax : List ℚ := s.map (fun x : Int => |(x : ℚ) / ((cfg.height : ℚ) - 1) - 1/2|)
  cfg.R0
    + (ax.map (fun a => if 1/4 < a then (1 : ℚ) else 0)).prod * cfg.R1
    + (ax.map (fun a => if 3/10 < a ∧ a < 2/5 then (1 : ℚ) else 0)).prod * cfg.R2

/-- The configuration of the `__main__` demo: `HyperGrid(n_envs=3, height=3)`
with default `ndim=2`, `R0=0.1`, `R1=0.5`, `R2=2.0`. -/
def cfg3 : GridCfg := { ndim := 2, height := 3, R0 := 1/10, R1 := 1/2, R2 := 2 }

/-! ## Demo scenario batches (`__main__`, hypergrid.py lines 301-316) -/

def demoB0 : StatesBatch := originBatch cfg3 3

/-- A single-element batch whose element is already done (as produced by
a trajectory that picked the stop action). -/
def doneBatch : StatesBatch :=
  { states := [[1, 0]], masks := make_masks cfg3 [[1, 0]],
    backward_masks := make_backward_masks cfg3 [[1, 0]],
    already_dones := [true] }

def demoB1 : StatesBatch := stepRun cfg3 demoB0 [0, 1, 1]

def demoB2 : StatesBatch := stepRun cfg3 demoB1 [0, 2, 1]

def demoB3 : StatesBatch := stepRun cfg3 demoB2 [1, 1, 2]

/-- The two mask fields are exactly the pure functions `make_masks` /
`make_backward_masks` of the current states array. -/
def maskInvariant (cfg : GridCfg) (b : StatesBatch) : Prop :=
  b.masks = make_masks cfg b.states
    ∧ b.backward_masks = make_backward_masks cfg b.states

/-- Little-endian base-`h` encoder; `get_states_indices` equals it on the
reversed state vector. -/
def encLE (h : Nat) : List Int → Int
  | [] => 0
  | d :: ds => d + (h : Int) * encLE h ds

/-! ## Round trip: forward trajectory then reversed backward actions -/

/-- Iterated `step` over a list of per-step action vectors (the driver
loop exercised by the demo). -/
def runForward (cfg : GridCfg) : StatesBatch → List (List Nat) → Except PyError StatesBatch
  | b, [] => .ok b
  | b, as :: rest => do
    let r ← step cfg b as
    runForward cfg r.1 rest

/-- Iterated `backward_step` over a list of per-step action vectors. -/
def runBackward (cfg : GridCfg) : StatesBatch → List (List Nat) → Except PyError StatesBatch
  | b, [] => .ok b
  | b, as :: rest => do
    let r ← backward_step cfg b as
    runBackward cfg r.1 rest

/-- Well-formed live batch as reached by stop-free forward play: `n`
state rows of length `ndim` with non-negative coordinates, masks
consistent with the states, and no element done. -/
def Good (cfg : GridCfg) (n : Nat) (b : StatesBatch) : Prop :=
  b.states.length = n
  ∧ (∀ r ∈ b.states, r.length = cfg.ndim)
  ∧ (∀ r ∈ b.states, ∀ x ∈ r, 0 ≤ x)
  ∧ b.masks = make_masks cfg b.states
  ∧ b.backward_masks = make_backward_masks cfg b.states
  ∧ b.already_dones = List.replicate n false

/-! ## List-level helper lemmas -/

section ListLemmas

variable {α : Type} {β : Type} {γ : Type}

theorem mem_zip_iff (l₁ : List α) (l₂ : List β) (p : α × β) :
    p ∈ l₁.zip l₂ ↔ ∃ i, l₁.get? i = some p.1 ∧ l₂.get? i = some p.2 := by
  rw [List.mem_iff_get?]
  constructor
  · rintro ⟨i, h⟩
    exact ⟨i, (List.get?_zip_eq_some l₁ l₂ p i).mp h⟩
  · rintro ⟨i, h₁, h₂⟩
    exact ⟨i, (List.get?_zip_eq_some l₁ l₂ p i).mpr ⟨h₁, h₂⟩⟩

end ListLemmas

section FilterByNotLemmas

variable {α : Type} {β : Type}

theorem filterByNot_nil (xs : List α) : filterByNot [] xs = [] := rfl

theorem filterByNot_nil_right (ds : List Bool) :
    filterByNot ds ([] : List α) = [] := by
  simp [filterByNot]

theorem filterByNot_cons_true (ds : List Bool) (x : α) (xs : List α) :
    filterByNot (true :: ds) (x :: xs) = filterByNot ds xs := by
  simp [filterByNot]

theorem filterByNot_cons_false (ds : List Bool) (x : α) (xs : List α) :
    filterByNot (false :: ds) (x :: xs) = x :: filterByNot ds xs := by
  simp [filterByNot]

theorem filterByNot_replicate_false :
    ∀ (xs : List α) (n : Nat), xs.length = n →
      filterByNot (List.replicate n false) xs = xs
  | [], 0, _ => rfl
  | x :: xs, n + 1, h => by
    rw [List.replicate_succ, filterByNot_cons_false,
      filterByNot_replicate_false xs n (by simpa using h)]
  | [], n + 1, h => by simp at h
  | x :: xs, 0, h => by simp at h

theorem mem_filterByNot :
    ∀ (ds : List Bool) (xs : List α) (x : α),
      x ∈ filterByNot ds xs
        ↔ ∃ i, ds.get? i = some false ∧ xs.get? i = some x
  | [], xs, x => by simp [filterByNot]
  | d :: ds, [], x => by
    rw [filterByNot_nil_right]
    simp
  | true :: ds, y :: xs, x => by
    rw [filterByNot_cons_true, mem_filterByNot ds xs x]
    constructor
    · rintro ⟨i, h₁, h₂⟩
      exact ⟨i + 1, by simpa using h₁, by simpa using h₂⟩
    · rintro ⟨i, h₁, h₂⟩
      match i, h₁, h₂ with
      | 0, h₁, _ => simp at h₁
      | i + 1, h₁, h₂ => exact ⟨i, by simpa using h₁, by simpa using h₂⟩
  | false :: ds, y :: xs, x => by
    rw [filterByNot_cons_false, List.mem_cons, mem_filterByNot ds xs x]
    constructor
    · rintro (rfl | ⟨i, h₁, h₂⟩)
      · exact ⟨0, rfl, rfl⟩
      · exact ⟨i + 1, by simpa using h₁, by simpa using h₂⟩
    · rintro ⟨i, h₁, h₂⟩
      match i, h₁, h₂ with
      | 0, _, h₂ => exact Or.inl (by simpa using h₂.symm)
      | i + 1, h₁, h₂ => exact Or.inr ⟨i, by simpa using h₁, by simpa using h₂⟩

theorem zip_filterByNot :
    ∀ (ds : List Bool) (xs : List α) (ys : List β),
      xs.length = ds.length → ys.length = ds.length →
      (filterByNot ds xs).zip (filterByNot ds ys)
        = filterByNot ds (xs.zip ys)
  | [], xs, ys, _, _ => by simp [filterByNot]
  | d :: ds, [], ys, h₁, _ => by simp at h₁
  | d :: ds, x :: xs, [], _, h₂ => by simp at h₂
  | true :: ds, x :: xs, y :: ys, h₁, h₂ => by
    rw [List.zip_cons_cons, filterByNot_cons_true, filterByNot_cons_true,
      filterByNot_cons_true]
    exact zip_filterByNot ds xs ys (by simpa using h₁) (by simpa using h₂)
  | false :: ds, x :: xs, y :: ys, h₁, h₂ => by
    rw [List.zip_cons_cons, filterByNot_cons_false, filterByNot_cons_false,
      filterByNot_cons_false, List.zip_cons_cons,
      zip_filterByNot ds xs ys (by simpa using h₁) (by simpa using h₂)]

theorem length_filterByNot_replicate_false (n : Nat) (xs : List α)
    (h : xs.length = n) : (filterByNot (List.replicate n false) xs).length = n := by
  rw [filterByNot_replicate_false xs n h, h]

end FilterByNotLemmas

section ValidateLemmas

theorem gatherList_eq_none_iff :
    ∀ (l : List (List Bool × Nat)),
      gatherList l = none ↔ ∃ p ∈ l, p.1.get? p.2 = none
  | [] => by simp [gatherList]
  | p :: l => by
    have ih := gatherList_eq_none_iff l
    cases he : p.1.get? p.2 with
    | none =>
      cases hl : gatherList l with
      | none =>
        simp only [gatherList, he, hl, List.mem_cons]
        exact ⟨fun _ => ⟨p, Or.inl rfl, he⟩, fun _ => trivial⟩
      | some es =>
        simp only [gatherList, he, hl, List.mem_cons]
        exact ⟨fun _ => ⟨p, Or.inl rfl, he⟩, fun _ => trivial⟩
    | some e =>
      cases hl : gatherList l with
      | none =>
        simp only [gatherList, he, hl, List.mem_cons]
        refine ⟨fun _ => ?_, fun _ => trivial⟩
        rcases ih.mp hl with ⟨q, hq, hqn⟩
        exact ⟨q, Or.inr hq, hqn⟩
      | some es =>
        simp only [gatherList, he, hl, List.mem_cons]
        constructor
        · intro h; exact absurd h (by simp)
        · rintro ⟨q, hq | hq, hqn⟩
          · rw [hq, he] at hqn; cases hqn
          · have : gatherList l = none := ih.mpr ⟨q, hq, hqn⟩
            rw [hl] at this; cases this

theorem gatherList_some_all_iff :
    ∀ (l : List (List Bool × Nat)) (gs : List Bool),
      gatherList l = some gs →
      (gs.all (· == true) = true ↔ ∀ p ∈ l, p.1.get? p.2 = some true)
  | [], gs, h => by
    simp only [gatherList] at h
    cases h
    simp
  | p :: l, gs, h => by
    cases he : p.1.get? p.2 with
    | none => simp only [gatherList, he] at h; cases h
    | some e =>
      cases hl : gatherList l with
      | none => simp only [gatherList, he, hl] at h; cases h
      | some es =>
        simp only [gatherList, he, hl] at h
        cases h
        have ih := gatherList_some_all_iff l es hl
        simp only [List.all_cons, List.mem_cons, Bool.and_eq_true, beq_iff_eq]
        constructor
        · rintro ⟨rfl, hall⟩ q hq
          rcases hq with rfl | hq
          · exact he
          · exact ih.mp hall q hq
        · intro hall
          refine ⟨?_, ih.mpr (fun q hq => hall q (Or.inr hq))⟩
          have h0 := hall p (Or.inl rfl)
          rw [he] at h0
          cases h0
          rfl

theorem validate_ok_iff (rows : List (List Bool)) (acts : List Nat) :
    validate rows acts = .ok ()
      ↔ ∀ p ∈ rows.zip acts, p.1.get? p.2 = some true := by
  cases hg : gatherList (rows.zip acts) with
  | none =>
    simp only [validate, gatherAll, hg]
    constructor
    · intro h; cases h
    · intro hall
      exfalso
      rcases (gatherList_eq_none_iff _).mp hg with ⟨p, hp, hpn⟩
      rw [hall p hp] at hpn
      cases hpn
  | some gs =>
    have hiff := gatherList_some_all_iff _ gs hg
    simp only [validate, gatherAll, hg]
    by_cases hall : gs.all (· == true) = true
    · rw [if_pos hall]
      exact ⟨fun _ => hiff.mp hall, fun _ => rfl⟩
    · rw [if_neg hall]
      constructor
      · intro h; cases h
      · intro h; exact absurd (hiff.mpr h) hall

theorem validate_error_cases (rows : List (List Bool)) (acts : List Nat)
    (e : PyError) (h : validate rows acts = .error e) :
    (e = .runtimeError ∧ ∃ p ∈ rows.zip acts, p.1.get? p.2 = none)
    ∨ (e = .valueError ∧ ∃ p ∈ rows.zip acts, p.1.get? p.2 = some false) := by
  cases hg : gatherList (rows.zip acts) with
  | none =>
    simp only [validate, gatherAll, hg] at h
    cases h
    exact Or.inl ⟨rfl, (gatherList_eq_none_iff _).mp hg⟩
  | some gs =>
    simp only [validate, gatherAll, hg] at h
    by_cases hall : gs.all (· == true) = true
    · rw [if_pos hall] at h; cases h
    · rw [if_neg hall] at h
      cases h
      refine Or.inr ⟨rfl, ?_⟩
      by_contra hno
      push_neg at hno
      apply hall
      rw [gatherList_some_all_iff _ gs hg]
      intro p hp
      cases hpe : p.1.get? p.2 with
      | none =>
        exfalso
        have : gatherList (rows.zip acts) = none :=
          (gatherList_eq_none_iff _).mpr ⟨p, hp, hpe⟩
        rw [hg] at this
        cases this
      | some b =>
        cases b with
        | true => rfl
        | false => exact absurd hpe (hno p hp)

theorem validate_isError_iff (rows : List (List Bool)) (acts : List Nat) :
    (∃ e, validate rows acts = .error e)
      ↔ ∃ p ∈ rows.zip acts, p.1.get? p.2 ≠ some true := by
  constructor
  · rintro ⟨e, he⟩
    rcases validate_error_cases rows acts e he with ⟨_, p, hp, hpn⟩ | ⟨_, p, hp, hpn⟩
    · exact ⟨p, hp, by rw [hpn]; simp⟩
    · exact ⟨p, hp, by rw [hpn]; simp⟩
  · rintro ⟨p, hp, hpn⟩
    cases hv : validate rows acts with
    | error e => exact ⟨e, rfl⟩
    | ok u =>
      cases u
      exact absurd ((validate_ok_iff rows acts).mp hv p hp) hpn

end ValidateLemmas

/-! ## Arithmetic helper lemmas -/

section ProdIndicator

theorem prod_indicator {α : Type} (p : α → Prop) [DecidablePred p] :
    ∀ (l : List α),
      (l.map (fun a => if p a then (1 : ℚ) else 0)).prod
        = if ∀ a ∈ l, p a then 1 else 0
  | [] => by simp
  | x :: xs => by
    rw [List.map_cons, List.prod_cons, prod_indicator p xs]
    by_cases hx : p x <;> by_cases hall : ∀ a ∈ xs, p a <;>
      simp [List.forall_mem_cons, hx, hall]

theorem sum_eq_zero_iff_of_nonneg :
    ∀ (l : List Int), (∀ x ∈ l, 0 ≤ x) → (l.sum = 0 ↔ ∀ x ∈ l, x = 0)
  | [], _ => by simp
  | x :: xs, h => by
    have hx : 0 ≤ x := h x (List.mem_cons_self x xs)
    have hxs : ∀ y ∈ xs, 0 ≤ y := fun y hy => h y (List.mem_cons_of_mem x hy)
    have hs : 0 ≤ xs.sum := List.sum_nonneg hxs
    rw [List.sum_cons, List.forall_mem_cons,
      ← sum_eq_zero_iff_of_nonneg xs hxs]
    omega

end ProdIndicator


/-! ## Elimination and mask-row lemmas -/

section StepElim

theorem step_ok_iff (cfg : GridCfg) (b : StatesBatch) (as : List Nat)
    (r : StatesBatch × List Bool) :
    step cfg b as = .ok r
      ↔ validate (filterByNot b.already_dones b.masks)
          (filterByNot b.already_dones as) = .ok ()
        ∧ r = ({ states := stepStates cfg b as,
                 masks := make_masks cfg (stepStates cfg b as),
                 backward_masks := make_backward_masks cfg (stepStates cfg b as),
                 already_dones := stepDones cfg b as }, stepDones cfg b as) := by
  cases hv : validate (filterByNot b.already_dones b.masks)
      (filterByNot b.already_dones as) with
  | error e =>
    constructor
    · intro h
      rw [step] at h
      rw [hv] at h
      cases h
    · rintro ⟨h, -⟩
      cases h
  | ok u =>
    cases u
    constructor
    · intro h
      rw [step] at h
      rw [hv] at h
      refine ⟨rfl, ?_⟩
      cases h
      rfl
    · rintro ⟨-, rfl⟩
      rw [step, hv]
      rfl

theorem step_error_iff (cfg : GridCfg) (b : StatesBatch) (as : List Nat)
    (e : PyError) :
    step cfg b as = .error e
      ↔ validate (filterByNot b.already_dones b.masks)
          (filterByNot b.already_dones as) = .error e := by
  cases hv : validate (filterByNot b.already_dones b.masks)
      (filterByNot b.already_dones as) with
  | error e' =>
    rw [step, hv]
    constructor
    · intro h; cases h; rfl
    · intro h; cases h; rfl
  | ok u =>
    cases u
    rw [step, hv]
    constructor
    · intro h; cases h
    · intro h; cases h

theorem backward_step_ok_iff (cfg : GridCfg) (b : StatesBatch) (as : List Nat)
    (r : StatesBatch × List Bool) :
    backward_step cfg b as = .ok r
      ↔ validate (filterByNot b.already_dones b.backward_masks)
          (filterByNot b.already_dones as) = .ok ()
        ∧ r = ({ states := backwardStates cfg b as,
                 masks := make_masks cfg (backwardStates cfg b as),
                 backward_masks := make_backward_masks cfg (backwardStates cfg b as),
                 already_dones := backwardDones cfg b as }, backwardDones cfg b as) := by
  cases hv : validate (filterByNot b.already_dones b.backward_masks)
      (filterByNot b.already_dones as) with
  | error e =>
    constructor
    · intro h
      rw [backward_step] at h
      rw [hv] at h
      cases h
    · rintro ⟨h, -⟩
      cases h
  | ok u =>
    cases u
    constructor
    · intro h
      rw [backward_step] at h
      rw [hv] at h
      refine ⟨rfl, ?_⟩
      cases h
      rfl
    · rintro ⟨-, rfl⟩
      rw [backward_step, hv]
      rfl

theorem backward_step_error_iff (cfg : GridCfg) (b : StatesBatch) (as : List Nat)
    (e : PyError) :
    backward_step cfg b as = .error e
      ↔ validate (filterByNot b.already_dones b.backward_masks)
          (filterByNot b.already_dones as) = .error e := by
  cases hv : validate (filterByNot b.already_dones b.backward_masks)
      (filterByNot b.already_dones as) with
  | error e' =>
    rw [backward_step, hv]
    constructor
    · intro h; cases h; rfl
    · intro h; cases h; rfl
  | ok u =>
    cases u
    rw [backward_step, hv]
    constructor
    · intro h; cases h
    · intro h; cases h

end StepElim

section MaskRowLemmas

theorem maskRowF_length (cfg : GridCfg) (row : List Int) :
    (maskRowF cfg row).length = row.length + 1 := by
  simp [maskRowF]

theorem maskRowF_get?_lt (cfg : GridCfg) (row : List Int) (d : Nat)
    (hd : d < row.length) :
    (maskRowF cfg row).get? d
      = some (row.getD d 0 != (cfg.height : Int) - 1) := by
  rw [maskRowF, List.get?_append (by simpa using hd), List.get?_map]
  cases hr : row.get? d with
  | none =>
    exact absurd (List.get?_eq_none.mp hr) (by omega)
  | some v =>
    rw [List.getD_eq_getD_get? row 0 d, hr]
    rfl

theorem maskRowF_get?_last (cfg : GridCfg) (row : List Int) :
    (maskRowF cfg row).get? row.length = some true := by
  rw [maskRowF, List.get?_append_right (by simp)]
  simp

theorem backRow_get?_lt (row : List Int) (d : Nat) (hd : d < row.length) :
    (row.map (fun x => x != (0 : Int))).get? d
      = some (row.getD d 0 != (0 : Int)) := by
  rw [List.get?_map]
  cases hr : row.get? d with
  | none =>
    exact absurd (List.get?_eq_none.mp hr) (by omega)
  | some v =>
    rw [List.getD_eq_getD_get? row 0 d, hr]
    rfl

theorem make_masks_get? (cfg : GridCfg) (S : List (List Int)) (i : Nat)
    (row : List Int) (h : S.get? i = some row) :
    (make_masks cfg S).get? i = some (maskRowF cfg row) := by
  rw [make_masks, List.get?_map, h]
  rfl

theorem make_backward_masks_get? (cfg : GridCfg) (S : List (List Int)) (i : Nat)
    (row : List Int) (h : S.get? i = some row) :
    (make_backward_masks cfg S).get? i
      = some (row.map (fun x => x != (0 : Int))) := by
  rw [make_backward_masks, List.get?_map, h]
  rfl

end MaskRowLemmas

/-! ## Claim theorems -/

/-- **C1.** Step transition semantics on the concrete demo scenario
(ndim=2, height=3, batch=3): from the all-origin batch, actions `[0,1,1]`
give states `[[1,0],[0,1],[0,1]]` with done `[F,F,F]`; actions `[0,2,1]`
give `[[2,0],[0,1],[0,2]]` with done `[F,T,F]` (element 1 picked the stop
action 2, its state unchanged); actions `[1,1,2]` make element 2 done
(done `[F,T,T]`, states `[[2,1],[0,1],[0,2]]`); and a further `step` with
actions `[0,1,1]` raises the invalid-action `ValueError` because element
0's coordinate 0 already equals `height-1 = 2` and its forward mask entry
for axis 0 is `false`. -/
theorem step_demo_scenario :
    (step cfg3 demoB0 [0, 1, 1]).map (fun r => (r.1.states, r.2))
      = .ok ([[1, 0], [0, 1], [0, 1]], [false, false, false])
    ∧ (step cfg3 demoB1 [0, 2, 1]).map (fun r => (r.1.states, r.2))
      = .ok ([[2, 0], [0, 1], [0, 2]], [false, true, false])
    ∧ (step cfg3 demoB2 [1, 1, 2]).map (fun r => (r.1.states, r.2))
      = .ok ([[2, 1], [0, 1], [0, 2]], [false, true, true])
    ∧ step cfg3 demoB3 [0, 1, 1] = .error .valueError
    ∧ demoB3.states.getD 0 [] = [2, 1]
    ∧ ((2 : Int) : Int) = (cfg3.height : Int) - 1
    ∧ (demoB3.masks.getD 0 []).getD 0 true = false := by
  decide

/-- **C7.** Default reward (`reward_cos=False`): for every state, with
`ax_d = |state_d/(height-1) - 0.5|`, the reward equals
`R0 + R1·[∀ d, ax_d > 1/4] + R2·[∀ d, 3/10 < ax_d < 2/5]` — each product
of per-dimension indicators is `1` iff ALL dimensions satisfy the strict
predicate and `0` otherwise; and in the concrete scenario `ndim=2,
height=3, R0=0.1, R1=0.5, R2=2.0`, state `[2,2]` has `ax = [1/2, 1/2]`
and reward `3/5 = 0.6`. -/
theorem reward_default_formula :
    (∀ (cfg : GridCfg) (s : List Int),
        reward cfg s
          = cfg.R0
            + (if ∀ x ∈ s, 1/4 < |(x : ℚ) / ((cfg.height : ℚ) - 1) - 1/2|
               then cfg.R1 else 0)
            + (if ∀ x ∈ s, 3/10 < |(x : ℚ) / ((cfg.height : ℚ) - 1) - 1/2|
                    ∧ |(x : ℚ) / ((cfg.height : ℚ) - 1) - 1/2| < 2/5
               then cfg.R2 else 0))
    ∧ [(2 : Int), 2].map (fun x : Int => |(x : ℚ) / ((cfg3.height : ℚ) - 1) - 1/2|)
        = [1/2, 1/2]
    ∧ reward cfg3 [2, 2] = 3/5 := by
  refine ⟨fun cfg s => ?_, by norm_num [cfg3], by norm_num [reward, cfg3, abs_of_nonneg]⟩
  have h1 : (∀ a ∈ s.map (fun x : Int => |(x : ℚ) / ((cfg.height : ℚ) - 1) - 1/2|),
        1/4 < a)
      ↔ ∀ x ∈ s, 1/4 < |(x : ℚ) / ((cfg.height : ℚ) - 1) - 1/2| := by
    rw [List.forall_mem_map]
  have h2 : (∀ a ∈ s.map (fun x : Int => |(x : ℚ) / ((cfg.height : ℚ) - 1) - 1/2|),
        3/10 < a ∧ a < 2/5)
      ↔ ∀ x ∈ s, 3/10 < |(x : ℚ) / ((cfg.height : ℚ) - 1) - 1/2|
          ∧ |(x : ℚ) / ((cfg.height : ℚ) - 1) - 1/2| < 2/5 := by
    rw [List.forall_mem_map]
  simp only [reward]
  rw [prod_indicator (fun a => 1/4 < a), prod_indicator (fun a => 3/10 < a ∧ a < 2/5)]
  simp only [ite_mul, one_mul, zero_mul]
  simp only [h1, h2]

section IndexHelpers

theorem zipWith_get?_some {α β γ : Type} (f : α → β → γ) (l₁ : List α)
    (l₂ : List β) (i : Nat) (a : α) (c : β)
    (h₁ : l₁.get? i = some a) (h₂ : l₂.get? i = some c) :
    (List.zipWith f l₁ l₂).get? i = some (f a c) := by
  rw [List.get?_zipWith', h₁, h₂]
  rfl

theorem zip_get?_some {α β : Type} (l₁ : List α) (l₂ : List β) (i : Nat)
    (a : α) (c : β) (h₁ : l₁.get? i = some a) (h₂ : l₂.get? i = some c) :
    (l₁.zip l₂).get? i = some (a, c) :=
  (List.get?_zip_eq_some l₁ l₂ (a, c) i).mpr ⟨h₁, h₂⟩

theorem replicate_get? {α : Type} (n i : Nat) (a : α) (h : i < n) :
    (List.replicate n a).get? i = some a := by
  rw [List.get?_eq_getElem?]
  simp [List.getElem?_replicate, h]

theorem getD_set_self (row : List Int) (d : Nat) (v : Int)
    (hd : d < row.length) : (row.set d v).getD d 0 = v := by
  rw [List.getD_eq_getD_get? (row.set d v) 0 d, List.get?_set_eq_of_lt v hd]
  rfl

theorem incAt_getD (row : List Int) (d : Nat) (hd : d < row.length) :
    (incAt row d).getD d 0 = row.getD d 0 + 1 :=
  getD_set_self row d _ hd

end IndexHelpers

theorem maskInvariant_pointwise (cfg : GridCfg) (b' : StatesBatch)
    (hInv : maskInvariant cfg b') :
    ∀ i row, b'.states.get? i = some row →
      (b'.masks.get? i = some (maskRowF cfg row)
        ∧ (maskRowF cfg row).length = row.length + 1
        ∧ (maskRowF cfg row).get? row.length = some true
        ∧ ∀ d, d < row.length →
            ((maskRowF cfg row).get? d
                = some (row.getD d 0 != (cfg.height : Int) - 1)
              ∧ (0 ≤ row.getD d 0 → row.getD d 0 ≤ (cfg.height : Int) - 1 →
                  ((maskRowF cfg row).get? d = some true
                    ↔ row.getD d 0 < (cfg.height : Int) - 1))))
      ∧ (b'.backward_masks.get? i = some (row.map (fun x => x != (0 : Int)))
          ∧ (row.map (fun x => x != (0 : Int))).length = row.length
          ∧ ∀ d, d < row.length →
              ((row.map (fun x => x != (0 : Int))).get? d
                  = some (row.getD d 0 != (0 : Int))
                ∧ (0 ≤ row.getD d 0 →
                    ((row.map (fun x => x != (0 : Int))).get? d = some true
                      ↔ 0 < row.getD d 0)))) := by
  intro i row hrow
  obtain ⟨hm, hbm⟩ := hInv
  refine ⟨⟨?_, maskRowF_length cfg row, maskRowF_get?_last cfg row, ?_⟩,
          ?_, by simp, ?_⟩
  · rw [hm]; exact make_masks_get? cfg b'.states i row hrow
  · intro d hd
    rw [maskRowF_get?_lt cfg row d hd]
    refine ⟨rfl, fun h0 h1 => ?_⟩
    simp only [Option.some.injEq, bne_iff_ne, ne_eq]
    omega
  · rw [hbm]; exact make_backward_masks_get? cfg b'.states i row hrow
  · intro d hd
    rw [backRow_get?_lt row d hd]
    refine ⟨rfl, fun h0 => ?_⟩
    simp only [Option.some.injEq, bne_iff_ne, ne_eq]
    omega

/-- **C5 counterexample.** The claim "forward mask column `d` is true iff
coordinate `d` is `< height-1`" is false right after batch construction
from a caller-supplied array: with `height = 3`, a batch constructed from
states `[[3, 0]]` has forward-mask entry `true` in column 0, although
`3 < height - 1 = 2` does not hold (the source tests `== height - 1`, not
`>=`). -/
theorem forward_mask_lt_counterexample :
    ((fromStates cfg3 [[3, 0]]).masks.getD 0 []).getD 0 false = true
    ∧ ¬((3 : Int) < (cfg3.height : Int) - 1)
    ∧ (fromStates cfg3 [[3, 0]]).states.getD 0 [] = [3, 0] := by
  decide

/-- **C5 (amended).** After every successful `step` or `backward_step`,
and after batch construction, the masks are the stated pure function of
the current states array: `masks = make_masks(states)` and
`backward_masks = make_backward_masks(states)`; pointwise, the forward
mask row of a state row has `row.length + 1` entries whose last (stop)
column is always `true` and whose column `d < row.length` is `true` iff
coordinate `d` differs from `height - 1` — equivalently, for coordinates
within `[0, height-1]`, iff the coordinate is `< height - 1` —, and the
backward mask row has exactly `row.length` (= `ndim`) columns, no stop
column, with column `d` `true` iff coordinate `d` differs from `0` —
equivalently, for non-negative coordinates, iff it is `> 0`. -/
theorem masks_recomputed (cfg : GridCfg) (b b' : StatesBatch) (as : List Nat)
    (ds : List Bool) (S : List (List Int))
    (h : step cfg b as = .ok (b', ds) ∨ backward_step cfg b as = .ok (b', ds)
         ∨ b' = fromStates cfg S) :
    maskInvariant cfg b'
    ∧ ∀ i row, b'.states.get? i = some row →
        (b'.masks.get? i = some (maskRowF cfg row)
          ∧ (maskRowF cfg row).length = row.length + 1
          ∧ (maskRowF cfg row).get? row.length = some true
          ∧ ∀ d, d < row.length →
              ((maskRowF cfg row).get? d
                  = some (row.getD d 0 != (cfg.height : Int) - 1)
                ∧ (0 ≤ row.getD d 0 → row.getD d 0 ≤ (cfg.height : Int) - 1 →
                    ((maskRowF cfg row).get? d = some true
                      ↔ row.getD d 0 < (cfg.height : Int) - 1))))
        ∧ (b'.backward_masks.get? i = some (row.map (fun x => x != (0 : Int)))
            ∧ (row.map (fun x => x != (0 : Int))).length = row.length
            ∧ ∀ d, d < row.length →
                ((row.map (fun x => x != (0 : Int))).get? d
                    = some (row.getD d 0 != (0 : Int))
                  ∧ (0 ≤ row.getD d 0 →
                      ((row.map (fun x => x != (0 : Int))).get? d = some true
                        ↔ 0 < row.getD d 0)))) := by
  have hInv : maskInvariant cfg b' := by
    rcases h with h | h | h
    · obtain ⟨-, hr⟩ := (step_ok_iff cfg b as _).mp h
      cases hr
      exact ⟨rfl, rfl⟩
    · obtain ⟨-, hr⟩ := (backward_step_ok_iff cfg b as _).mp h
      cases hr
      exact ⟨rfl, rfl⟩
    · cases h
      exact ⟨rfl, rfl⟩
  exact ⟨hInv, maskInvariant_pointwise cfg b' hInv⟩

/-- Witness for `masks_recomputed` at a concrete input: the batch
constructed from states `[[1, 0]]` with the demo configuration. -/
theorem masks_recomputed_witness :
    maskInvariant cfg3 (fromStates cfg3 [[1, 0]]) :=
  (masks_recomputed cfg3 (fromStates cfg3 [[1, 0]]) (fromStates cfg3 [[1, 0]])
    [] [] [[1, 0]] (Or.inr (Or.inr rfl))).1

/-- **C9 counterexample.** `update_the_dones` marks an element done iff
its coordinates SUM to zero, not iff it is the all-zero origin: for the
batch constructed at the public interface from the caller-supplied
integer state array `[[-1, 1]]`, `update_the_dones` sets the done flag
although the state vector is not the origin `[0, 0]`. -/
theorem update_the_dones_counterexample :
    (update_the_dones (fromStates cfg3 [[-1, 1]])).already_dones = [true]
    ∧ (update_the_dones (fromStates cfg3 [[-1, 1]])).states = [[-1, 1]]
    ∧ ([-1, 1] : List Int) ≠ [0, 0] := by
  decide

/-- **C9 (amended).** After `update_the_dones`, an element's done flag is
true iff its coordinates sum to zero; hence for every batch whose
coordinates are all non-negative (in particular the zero-initialized and
the randomly-initialized constructions, and any caller-supplied array
with non-negative entries), the done flag is true iff the state vector is
the all-zero origin. -/
theorem update_the_dones_origin_iff (b : StatesBatch)
    (hpos : ∀ r ∈ b.states, ∀ x ∈ r, 0 ≤ x) (i : Nat) (row : List Int)
    (hrow : b.states.get? i = some row) :
    (update_the_dones b).already_dones.get? i = some true
      ↔ ∀ x ∈ row, x = 0 := by
  have hmem : row ∈ b.states := List.get?_mem hrow
  simp only [update_the_dones]
  rw [List.get?_map, hrow]
  simp only [Option.map_some', Option.some.injEq, beq_iff_eq]
  exact sum_eq_zero_iff_of_nonneg row (hpos row hmem)

/-- Witness for `update_the_dones_origin_iff` at a concrete input: a
freshly constructed single-element batch at the origin. -/
theorem update_the_dones_origin_iff_witness :
    (update_the_dones (fromStates cfg3 [[0, 0]])).already_dones.get? 0
        = some true
      ↔ ∀ x ∈ ([0, 0] : List Int), x = 0 :=
  update_the_dones_origin_iff (fromStates cfg3 [[0, 0]]) (by decide) 0 [0, 0]
    (by decide)

/-- **C10.** `make_masks` marks increment action `d` illegal exactly when
coordinate `d` EQUALS `height - 1`, not when it is greater or equal: for
a batch constructed directly from a caller-supplied state array in which
element `i`'s coordinate `d` is strictly greater than `height - 1`, the
forward mask reports incrementing that coordinate as legal, and a
subsequent `step` giving element `i` action `d` (and every other element
the always-legal stop action) succeeds and pushes the coordinate further
beyond the grid bound. -/
theorem mask_allows_exceeding_height (cfg : GridCfg) (S : List (List Int))
    (i d : Nat) (row : List Int)
    (hS : ∀ r ∈ S, r.length = cfg.ndim)
    (hrow : S.get? i = some row) (hd : d < cfg.ndim)
    (hover : (cfg.height : Int) - 1 < row.getD d 0) :
    ((fromStates cfg S).masks.get? i = some (maskRowF cfg row)
      ∧ (maskRowF cfg row).get? d = some true)
    ∧ ∃ b' ds,
        step cfg (fromStates cfg S) ((List.replicate S.length cfg.ndim).set i d)
          = .ok (b', ds)
        ∧ b'.states.get? i = some (incAt row d)
        ∧ (incAt row d).getD d 0 = row.getD d 0 + 1
        ∧ (cfg.height : Int) - 1 < (incAt row d).getD d 0 := by
  have hlen_row : row.length = cfg.ndim := hS row (List.get?_mem hrow)
  have hiS : i < S.length := by
    rcases List.get?_eq_some.mp hrow with ⟨h, -⟩
    exact h
  set as : List Nat := (List.replicate S.length cfg.ndim).set i d with has
  have hasi : as.get? i = some d := by
    rw [has]
    exact List.get?_set_eq_of_lt d (by simpa using hiS)
  have haslen : as.length = S.length := by simp [has]
  have hentry : (maskRowF cfg row).get? d = some true := by
    rw [maskRowF_get?_lt cfg row d (by omega)]
    simp only [Option.some.injEq, bne_iff_ne, ne_eq]
    omega
  have hmask : (fromStates cfg S).masks.get? i = some (maskRowF cfg row) :=
    make_masks_get? cfg S i row hrow
  have hval : validate (make_masks cfg S) as = .ok () := by
    rw [validate_ok_iff]
    intro p hp
    rcases (mem_zip_iff _ _ p).mp hp with ⟨j, hm, ha⟩
    rw [make_masks, List.get?_map] at hm
    cases hj : S.get? j with
    | none => rw [hj] at hm; cases hm
    | some rowj =>
      rw [hj] at hm
      simp only [Option.map_some', Option.some.injEq] at hm
      have hjS : j < S.length := by
        rcases List.get?_eq_some.mp hj with ⟨h, -⟩
        exact h
      by_cases hij : j = i
      · subst hij
        have : rowj = row := by rw [hj] at hrow; cases hrow; rfl
        subst this
        rw [hasi] at ha
        have hp2 : d = p.2 := Option.some.inj ha
        rw [← hm, ← hp2]
        exact hentry
      · have ha' : as.get? j = some cfg.ndim := by
          rw [has, List.get?_set_ne d _ (fun h => hij h.symm)]
          exact replicate_get? _ _ _ hjS
        rw [ha'] at ha
        have hp2 : cfg.ndim = p.2 := Option.some.inj ha
        rw [← hm, ← hp2, ← hS rowj (List.get?_mem hj)]
        exact maskRowF_get?_last cfg rowj
  have hval' : validate (filterByNot (fromStates cfg S).already_dones
      (fromStates cfg S).masks)
      (filterByNot (fromStates cfg S).already_dones as) = .ok () := by
    have e₁ : filterByNot (List.replicate S.length false) (make_masks cfg S)
        = make_masks cfg S :=
      filterByNot_replicate_false _ _ (by simp [make_masks])
    have e₂ : filterByNot (List.replicate S.length false) as = as :=
      filterByNot_replicate_false _ _ haslen
    show validate (filterByNot (List.replicate S.length false) (make_masks cfg S))
      (filterByNot (List.replicate S.length false) as) = .ok ()
    rw [e₁, e₂]
    exact hval
  have hstep := (step_ok_iff cfg (fromStates cfg S) as _).mpr ⟨hval', rfl⟩
  have hdones_i : (stepDones cfg (fromStates cfg S) as).get? i = some false := by
    have h₁ : (fromStates cfg S).already_dones.get? i = some false :=
      replicate_get? _ _ _ hiS
    have hz := zipWith_get?_some
      (fun d a => d || (a == cfg.n_actions - 1))
      (fromStates cfg S).already_dones as i false d h₁ hasi
    rw [stepDones, hz]
    have hne : (d == cfg.n_actions - 1) = false := by
      rw [GridCfg.n_actions]
      simp only [Nat.add_sub_cancel]
      exact beq_eq_false_iff_ne.mpr (by omega)
    show some (false || (d == cfg.n_actions - 1)) = some false
    rw [hne]
    rfl
  have hstates_i : (stepStates cfg (fromStates cfg S) as).get? i
      = some (incAt row d) := by
    have hzip : ((stepDones cfg (fromStates cfg S) as).zip
        (fromStates cfg S).states).get? i = some (false, row) :=
      zip_get?_some _ _ i false row hdones_i hrow
    have hz := zipWith_get?_some
      (fun (p : Bool × List Int) (a : Nat) => if p.1 then p.2 else incAt p.2 a)
      _ _ i (false, row) d hzip hasi
    rw [stepStates, hz]
    rfl
  refine ⟨⟨hmask, hentry⟩, _, _, hstep, hstates_i, incAt_getD row d (by omega), ?_⟩
  rw [incAt_getD row d (by omega)]
  omega

/-- Witness for `mask_allows_exceeding_height` at a concrete input:
height 3, state `[[3, 0]]` whose coordinate 0 already exceeds
`height - 1 = 2`. -/
theorem mask_allows_exceeding_height_witness :
    (((fromStates cfg3 [[3, 0]]).masks.get? 0 = some (maskRowF cfg3 [3, 0])
      ∧ (maskRowF cfg3 [3, 0]).get? 0 = some true)
    ∧ ∃ b' ds,
        step cfg3 (fromStates cfg3 [[3, 0]])
            ((List.replicate [[(3 : Int), 0]].length cfg3.ndim).set 0 0)
          = .ok (b', ds)
        ∧ b'.states.get? 0 = some (incAt [3, 0] 0)
        ∧ (incAt [3, 0] 0).getD 0 0 = [(3 : Int), 0].getD 0 0 + 1
        ∧ (cfg3.height : Int) - 1 < (incAt [3, 0] 0).getD 0 0) :=
  mask_allows_exceeding_height cfg3 [[3, 0]] 0 0 [3, 0] (by decide) rfl
    (by decide) (by decide)

section ErrorSpec

theorem exists_mem_filterByNot_iff {α : Type} (ds : List Bool) (l : List α)
    (P : α → Prop) :
    (∃ p ∈ filterByNot ds l, P p) ↔ ∃ q ∈ ds.zip l, q.1 = false ∧ P q.2 := by
  constructor
  · rintro ⟨p, hp, hP⟩
    rcases (mem_filterByNot ds l p).mp hp with ⟨i, hdi, hli⟩
    exact ⟨(false, p), (mem_zip_iff ds l (false, p)).mpr ⟨i, hdi, hli⟩, rfl, hP⟩
  · rintro ⟨q, hq, hq1, hP⟩
    rcases (mem_zip_iff ds l q).mp hq with ⟨i, hdi, hli⟩
    rw [hq1] at hdi
    exact ⟨q.2, (mem_filterByNot ds l q.2).mpr ⟨i, hdi, hli⟩, hP⟩

theorem validate_filter_spec (ds : List Bool) (rows : List (List Bool))
    (acts : List Nat)
    (hr : rows.length = ds.length) (ha : acts.length = ds.length)
    (hrange : ∀ p ∈ ds.zip (rows.zip acts), p.1 = false → p.2.2 < p.2.1.length) :
    ((∃ e, validate (filterByNot ds rows) (filterByNot ds acts) = .error e)
      ↔ ∃ p ∈ ds.zip (rows.zip acts),
          p.1 = false ∧ p.2.1.get? p.2.2 = some false)
    ∧ (∀ e, validate (filterByNot ds rows) (filterByNot ds acts) = .error e →
        e = .valueError) := by
  have hz : (filterByNot ds rows).zip (filterByNot ds acts)
      = filterByNot ds (rows.zip acts) := zip_filterByNot ds rows acts hr ha
  constructor
  · rw [validate_isError_iff, hz,
      exists_mem_filterByNot_iff ds (rows.zip acts)
        (fun q => q.1.get? q.2 ≠ some true)]
    constructor
    · rintro ⟨q, hq, hq1, hne⟩
      have hlt : q.2.2 < q.2.1.length := hrange q hq hq1
      refine ⟨q, hq, hq1, ?_⟩
      rw [List.get?_eq_get hlt] at hne ⊢
      cases hb : q.2.1.get ⟨q.2.2, hlt⟩ with
      | true => rw [hb] at hne; exact absurd rfl hne
      | false => rfl
    · rintro ⟨q, hq, hq1, hfalse⟩
      refine ⟨q, hq, hq1, ?_⟩
      rw [hfalse]
      simp
  · intro e he
    rcases validate_error_cases _ _ e he with ⟨he', p, hp, hpn⟩ | ⟨he', -⟩
    · exfalso
      rw [hz] at hp
      rcases (mem_filterByNot ds (rows.zip acts) p).mp hp with ⟨i, hdi, hli⟩
      have hq : (false, p) ∈ ds.zip (rows.zip acts) :=
        (mem_zip_iff ds (rows.zip acts) (false, p)).mpr ⟨i, hdi, hli⟩
      have hlt := hrange (false, p) hq rfl
      rw [List.get?_eq_get hlt] at hpn
      cases hpn
    · exact he'

/-- **C2.** Error handling and atomicity: `step` (resp. `backward_step`)
fails exactly when some not-yet-done batch element's action has a `false`
entry in that element's forward (resp. backward) mask — provided every
not-yet-done element's action has an entry in the forward (resp.
backward) mask row at all, which is what the claim presupposes; the
forward condition admits the stop action, whose entry always exists.
The only error kind surfaced is the invalid-action `ValueError`, and on
failure the environment's state (`self._state`, resp. the caller's
batch) is unchanged — the source raises before any mutation. -/
theorem step_invalid_action_iff (cfg : GridCfg) (b : StatesBatch)
    (as : List Nat)
    (hmlen : b.masks.length = b.already_dones.length)
    (hblen : b.backward_masks.length = b.already_dones.length)
    (halen : as.length = b.already_dones.length) :
    ((∀ p ∈ b.already_dones.zip (b.masks.zip as),
        p.1 = false → p.2.2 < p.2.1.length) →
      ((∃ e, step cfg b as = .error e)
          ↔ ∃ p ∈ b.already_dones.zip (b.masks.zip as),
              p.1 = false ∧ p.2.1.get? p.2.2 = some false)
        ∧ (∀ e, step cfg b as = .error e → e = .valueError)
        ∧ (∀ e, step cfg b as = .error e → stepRun cfg b as = b))
    ∧ ((∀ p ∈ b.already_dones.zip (b.backward_masks.zip as),
        p.1 = false → p.2.2 < p.2.1.length) →
      ((∃ e, backward_step cfg b as = .error e)
          ↔ ∃ p ∈ b.already_dones.zip (b.backward_masks.zip as),
              p.1 = false ∧ p.2.1.get? p.2.2 = some false)
        ∧ (∀ e, backward_step cfg b as = .error e → e = .valueError)
        ∧ (∀ e, backward_step cfg b as = .error e → backwardRun cfg b as = b)) := by
  constructor
  · intro hrangeF
    obtain ⟨hFiff, hFval⟩ :=
      validate_filter_spec b.already_dones b.masks as hmlen halen hrangeF
    refine ⟨?_, ?_, ?_⟩
    · rw [← hFiff]
      constructor
      · rintro ⟨e, he⟩
        exact ⟨e, (step_error_iff cfg b as e).mp he⟩
      · rintro ⟨e, he⟩
        exact ⟨e, (step_error_iff cfg b as e).mpr he⟩
    · intro e he
      exact hFval e ((step_error_iff cfg b as e).mp he)
    · intro e he
      rw [stepRun, he]
  · intro hrangeB
    obtain ⟨hBiff, hBval⟩ :=
      validate_filter_spec b.already_dones b.backward_masks as hblen halen
        hrangeB
    refine ⟨?_, ?_, ?_⟩
    · rw [← hBiff]
      constructor
      · rintro ⟨e, he⟩
        exact ⟨e, (backward_step_error_iff cfg b as e).mp he⟩
      · rintro ⟨e, he⟩
        exact ⟨e, (backward_step_error_iff cfg b as e).mpr he⟩
    · intro e he
      exact hBval e ((backward_step_error_iff cfg b as e).mp he)
    · intro e he
      rw [backwardRun, he]

/-- Witness for `step_invalid_action_iff` at a concrete input: the demo
batch after one step (states `[[1,0],[0,1],[0,1]]`, nobody done) with
actions `[0, 2, 1]`, in which element 1 chooses the stop action `2` —
the forward-range condition holds because the stop entry exists in the
forward mask row. -/
theorem step_invalid_action_iff_witness :
    ((∃ e, step cfg3 demoB1 [0, 2, 1] = .error e)
        ↔ ∃ p ∈ demoB1.already_dones.zip (demoB1.masks.zip [0, 2, 1]),
            p.1 = false ∧ p.2.1.get? p.2.2 = some false)
      ∧ (∀ e, step cfg3 demoB1 [0, 2, 1] = .error e → e = .valueError)
      ∧ (∀ e, step cfg3 demoB1 [0, 2, 1] = .error e →
          stepRun cfg3 demoB1 [0, 2, 1] = demoB1) :=
  (step_invalid_action_iff cfg3 demoB1 [0, 2, 1] (by decide) (by decide)
    (by decide)).1 (by decide)

end ErrorSpec

section FrameLemmas

theorem filterByNot_congr {α : Type} :
    ∀ (ds : List Bool) (xs ys : List α),
      xs.length = ds.length → ys.length = ds.length →
      (∀ i, ds.get? i = some false → xs.get? i = ys.get? i) →
      filterByNot ds xs = filterByNot ds ys
  | [], [], [], _, _, _ => rfl
  | [], x :: xs, ys, h₁, _, _ => by simp at h₁
  | [], [], y :: ys, _, h₂, _ => by simp at h₂
  | d :: ds, [], ys, h₁, _, _ => by simp at h₁
  | d :: ds, x :: xs, [], _, h₂, _ => by simp at h₂
  | true :: ds, x :: xs, y :: ys, h₁, h₂, hag => by
    rw [filterByNot_cons_true, filterByNot_cons_true]
    exact filterByNot_congr ds xs ys (by simpa using h₁) (by simpa using h₂)
      (fun i hi => by have := hag (i + 1) (by simpa using hi); simpa using this)
  | false :: ds, x :: xs, y :: ys, h₁, h₂, hag => by
    have hxy : x = y := by have := hag 0 rfl; simpa using this
    rw [filterByNot_cons_false, filterByNot_cons_false, hxy,
      filterByNot_congr ds xs ys (by simpa using h₁) (by simpa using h₂)
        (fun i hi => by have := hag (i + 1) (by simpa using hi); simpa using this)]

theorem zipWith_congr_right {α β γ : Type} (f : α → β → γ) :
    ∀ (l : List α) (xs ys : List β),
      xs.length = ys.length →
      (∀ i a x y, l.get? i = some a → xs.get? i = some x →
        ys.get? i = some y → f a x = f a y) →
      List.zipWith f l xs = List.zipWith f l ys
  | l, [], [], _, _ => rfl
  | [], xs, ys, _, _ => by simp
  | a :: l, [], y :: ys, hlen, _ => by simp at hlen
  | a :: l, x :: xs, [], hlen, _ => by simp at hlen
  | a :: l, x :: xs, y :: ys, hlen, hp => by
    rw [List.zipWith_cons_cons, List.zipWith_cons_cons,
      hp 0 a x y rfl rfl rfl,
      zipWith_congr_right f l xs ys (by simpa using hlen)
        (fun i b xx yy h1 h2 h3 =>
          hp (i + 1) b xx yy (by simpa using h1) (by simpa using h2)
            (by simpa using h3))]

theorem stepDones_get?_false (cfg : GridCfg) (b : StatesBatch) (as : List Nat)
    (i : Nat) (h : (stepDones cfg b as).get? i = some false) :
    b.already_dones.get? i = some false := by
  rw [stepDones, List.get?_zipWith'] at h
  cases h₁ : b.already_dones.get? i with
  | none => rw [h₁] at h; cases h
  | some d =>
    rw [h₁] at h
    cases h₂ : as.get? i with
    | none => rw [h₂] at h; cases h
    | some a =>
      rw [h₂] at h
      simp only [Option.map_some', Option.some_bind, Option.bind_some, Option.some.injEq] at h
      cases d with
      | false => rfl
      | true => simp at h

theorem stepDones_get?_true (cfg : GridCfg) (b : StatesBatch) (as : List Nat)
    (i : Nat) (a : Nat) (hd : b.already_dones.get? i = some true)
    (ha : as.get? i = some a) :
    (stepDones cfg b as).get? i = some true := by
  have := zipWith_get?_some (fun d a => d || (a == cfg.n_actions - 1))
    b.already_dones as i true a hd ha
  rw [stepDones, this]
  rfl

end FrameLemmas

/-- **C4.** Frame property for done elements: in both `step` and
`backward_step`, the supplied action of an element already done before
the call is ignored and never validated — replacing the actions of
already-done elements by anything (even values out of the range
`[0, n_actions)`) gives the very same result, error or success — and on
success every already-done element keeps its state row unchanged and its
done flag `true` (in particular, `step` with the stop action on an
already-done element changes nothing for it). -/
theorem done_elements_frame (cfg : GridCfg) (b : StatesBatch)
    (as as' : List Nat)
    (hlen : as.length = b.already_dones.length)
    (hlen' : as'.length = b.already_dones.length)
    (hslen : b.states.length = b.already_dones.length)
    (hagree : ∀ i, b.already_dones.get? i = some false →
        as.get? i = as'.get? i) :
    (step cfg b as = step cfg b as'
      ∧ backward_step cfg b as = backward_step cfg b as')
    ∧ (∀ b' ds, step cfg b as = .ok (b', ds) →
        ∀ i, b.already_dones.get? i = some true →
          b'.states.get? i = b.states.get? i ∧ ds.get? i = some true)
    ∧ (∀ b' ds, backward_step cfg b as = .ok (b', ds) →
        ∀ i, b.already_dones.get? i = some true →
          b'.states.get? i = b.states.get? i ∧ ds.get? i = some true) := by
  have hfa : filterByNot b.already_dones as = filterByNot b.already_dones as' :=
    filterByNot_congr b.already_dones as as' hlen hlen' hagree
  have hdones : stepDones cfg b as = stepDones cfg b as' := by
    rw [stepDones, stepDones]
    refine zipWith_congr_right _ b.already_dones as as'
      (hlen.trans hlen'.symm) (fun i d a a' h1 h2 h3 => ?_)
    cases d with
    | true => rfl
    | false =>
      have := hagree i h1
      rw [h2, h3] at this
      cases this
      rfl
  have hstates : stepStates cfg b as = stepStates cfg b as' := by
    rw [stepStates, stepStates, ← hdones]
    refine zipWith_congr_right _ ((stepDones cfg b as).zip b.states) as as'
      (hlen.trans hlen'.symm) (fun i p a a' h1 h2 h3 => ?_)
    rcases (List.get?_zip_eq_some _ _ p i).mp h1 with ⟨hd, -⟩
    cases hp1 : p.1 with
    | true => simp [hp1]
    | false =>
      rw [hp1] at hd
      have := hagree i (stepDones_get?_false cfg b as i hd)
      rw [h2, h3] at this
      cases this
      rfl
  have hbs : backwardStates cfg b as = backwardStates cfg b as' := by
    rw [backwardStates, backwardStates]
    refine zipWith_congr_right _ (b.already_dones.zip b.states) as as'
      (hlen.trans hlen'.symm) (fun i p a a' h1 h2 h3 => ?_)
    rcases (List.get?_zip_eq_some _ _ p i).mp h1 with ⟨hd, -⟩
    cases hp1 : p.1 with
    | true => simp [hp1]
    | false =>
      rw [hp1] at hd
      have := hagree i hd
      rw [h2, h3] at this
      cases this
      rfl
  have hbd : backwardDones cfg b as = backwardDones cfg b as' := by
    rw [backwardDones, backwardDones, hbs]
  refine ⟨⟨?_, ?_⟩, ?_, ?_⟩
  · rw [step, step, hfa, hdones, hstates]
  · rw [backward_step, backward_step, hfa, hbs, hbd]
  · intro b' ds hok i hi
    obtain ⟨-, hr⟩ := (step_ok_iff cfg b as _).mp hok
    cases hr
    have hia : i < as.length := by
      rcases List.get?_eq_some.mp hi with ⟨hlt, -⟩
      omega
    have his : i < b.states.length := by
      rcases List.get?_eq_some.mp hi with ⟨hlt, -⟩
      omega
    have ha : as.get? i = some (as.get ⟨i, hia⟩) := List.get?_eq_get hia
    have hrow : b.states.get? i = some (b.states.get ⟨i, his⟩) :=
      List.get?_eq_get his
    have hdt : (stepDones cfg b as).get? i = some true :=
      stepDones_get?_true cfg b as i _ hi ha
    refine ⟨?_, hdt⟩
    show (stepStates cfg b as).get? i = b.states.get? i
    rw [stepStates]
    have hzip : ((stepDones cfg b as).zip b.states).get? i
        = some (true, b.states.get ⟨i, his⟩) :=
      zip_get?_some _ _ i true _ hdt hrow
    rw [zipWith_get?_some _ _ _ i (true, b.states.get ⟨i, his⟩)
      (as.get ⟨i, hia⟩) hzip ha, hrow]
    rfl
  · intro b' ds hok i hi
    obtain ⟨-, hr⟩ := (backward_step_ok_iff cfg b as _).mp hok
    cases hr
    have hia : i < as.length := by
      rcases List.get?_eq_some.mp hi with ⟨hlt, -⟩
      omega
    have his : i < b.states.length := by
      rcases List.get?_eq_some.mp hi with ⟨hlt, -⟩
      omega
    have ha : as.get? i = some (as.get ⟨i, hia⟩) := List.get?_eq_get hia
    have hrow : b.states.get? i = some (b.states.get ⟨i, his⟩) :=
      List.get?_eq_get his
    have hbsi : (backwardStates cfg b as).get? i = b.states.get? i := by
      rw [backwardStates]
      have hzip : (b.already_dones.zip b.states).get? i
          = some (true, b.states.get ⟨i, his⟩) :=
        zip_get?_some _ _ i true _ hi hrow
      rw [zipWith_get?_some _ _ _ i (true, b.states.get ⟨i, his⟩)
        (as.get ⟨i, hia⟩) hzip ha, hrow]
      rfl
    refine ⟨hbsi, ?_⟩
    show (backwardDones cfg b as).get? i = some true
    rw [backwardDones]
    have hrow' : (backwardStates cfg b as).get? i
        = some (b.states.get ⟨i, his⟩) := by
      rw [hbsi]
      exact hrow
    rw [zipWith_get?_some _ b.already_dones (backwardStates cfg b as) i true
      (b.states.get ⟨i, his⟩) hi hrow']
    rfl

/-- Witness for `done_elements_frame` at a concrete input: a batch whose
single element is already done; its action `0` may be replaced by the
out-of-range `43` without changing the result of `step`/`backward_step`. -/
theorem done_elements_frame_witness :
    (step cfg3 doneBatch [0] = step cfg3 doneBatch [43]
      ∧ backward_step cfg3 doneBatch [0] = backward_step cfg3 doneBatch [43])
    ∧ (∀ b' ds, step cfg3 doneBatch [0] = .ok (b', ds) →
        ∀ i, doneBatch.already_dones.get? i = some true →
          b'.states.get? i = doneBatch.states.get? i ∧ ds.get? i = some true)
    ∧ (∀ b' ds, backward_step cfg3 doneBatch [0] = .ok (b', ds) →
        ∀ i, doneBatch.already_dones.get? i = some true →
          b'.states.get? i = doneBatch.states.get? i ∧ ds.get? i = some true) :=
  done_elements_frame cfg3 doneBatch [0] [43] (by decide) (by decide)
    (by decide)
    (by
      intro i hi
      rcases i with _ | n
      · simp [doneBatch] at hi
      · simp [doneBatch] at hi)

section BoundLemmas

theorem validate_filter_ok_entry (ds : List Bool) (rows : List (List Bool))
    (acts : List Nat) (hr : rows.length = ds.length)
    (ha : acts.length = ds.length)
    (hok : validate (filterByNot ds rows) (filterByNot ds acts) = .ok ())
    (i : Nat) (mrow : List Bool) (a : Nat)
    (hd : ds.get? i = some false) (hrow : rows.get? i = some mrow)
    (hact : acts.get? i = some a) :
    mrow.get? a = some true := by
  have hall := (validate_ok_iff _ _).mp hok
  rw [zip_filterByNot ds rows acts hr ha] at hall
  exact hall (mrow, a)
    ((mem_filterByNot _ _ _).mpr ⟨i, hd, zip_get?_some _ _ i mrow a hrow hact⟩)

theorem mem_set_cases (row : List Int) (j : Nat) (v : Int) (x : Int)
    (hx : x ∈ row.set j v) : x ∈ row ∨ x = v := by
  rcases List.mem_iff_get?.mp hx with ⟨k, hk⟩
  by_cases hkj : j = k
  · subst hkj
    by_cases hlt : j < row.length
    · rw [List.get?_set_eq_of_lt v hlt] at hk
      exact Or.inr (Option.some.inj hk).symm
    · rw [List.set_eq_of_length_le (by omega)] at hk
      exact Or.inl (List.get?_mem hk)
  · rw [List.get?_set_ne v _ hkj] at hk
    exact Or.inl (List.get?_mem hk)

theorem getD_mem (row : List Int) (a : Nat) (h : a < row.length) :
    row.getD a 0 ∈ row := by
  rw [List.getD_eq_getD_get? row 0 a, List.get?_eq_get h]
  exact List.get_mem row a h

theorem stepDones_get?_false_stop (cfg : GridCfg) (b : StatesBatch)
    (as : List Nat) (i : Nat) (a : Nat)
    (h : (stepDones cfg b as).get? i = some false)
    (ha : as.get? i = some a) : a ≠ cfg.n_actions - 1 := by
  rw [stepDones, List.get?_zipWith', ha] at h
  cases h₁ : b.already_dones.get? i with
  | none => rw [h₁] at h; cases h
  | some d =>
    rw [h₁] at h
    simp only [Option.map_some', Option.some_bind, Option.bind_some, Option.some.injEq] at h
    intro hc
    rw [hc] at h
    simp at h

end BoundLemmas

/-- **C8.** State-space invariant: for a batch whose masks are consistent
with its states (as maintained by the API) and whose coordinates all lie
in `[0, height-1]`, every successful `step` and `backward_step` keeps
every coordinate of every batch element within `[0, height-1]` — legal
increments are blocked at `height-1` by the forward mask and legal
decrements are blocked at `0` by the backward mask. -/
theorem coords_stay_in_grid (cfg : GridCfg) (b : StatesBatch) (as : List Nat)
    (b' : StatesBatch) (ds : List Bool)
    (hm : b.masks = make_masks cfg b.states)
    (hbm : b.backward_masks = make_backward_masks cfg b.states)
    (hdlen : b.already_dones.length = b.states.length)
    (halen : as.length = b.states.length)
    (hbound : ∀ r ∈ b.states, ∀ x ∈ r, 0 ≤ x ∧ x ≤ (cfg.height : Int) - 1)
    (hstep : step cfg b as = .ok (b', ds) ∨ backward_step cfg b as = .ok (b', ds)) :
    ∀ r ∈ b'.states, ∀ x ∈ r, 0 ≤ x ∧ x ≤ (cfg.height : Int) - 1 := by
  have hmlen : b.masks.length = b.already_dones.length := by
    rw [hm, make_masks, List.length_map, hdlen]
  have hbmlen : b.backward_masks.length = b.already_dones.length := by
    rw [hbm, make_backward_masks, List.length_map, hdlen]
  have halen' : as.length = b.already_dones.length := by omega
  rcases hstep with hok | hok
  · obtain ⟨hv, hr⟩ := (step_ok_iff cfg b as _).mp hok
    cases hr
    intro r hrmem x hx
    show 0 ≤ x ∧ x ≤ (cfg.height : Int) - 1
    rcases List.mem_iff_get?.mp hrmem with ⟨i, hi⟩
    rw [stepStates, List.get?_zipWith'] at hi
    cases hz : ((stepDones cfg b as).zip b.states).get? i with
    | none => rw [hz] at hi; cases hi
    | some p =>
      rw [hz] at hi
      cases haq : as.get? i with
      | none => rw [haq] at hi; cases hi
      | some a =>
        rw [haq] at hi
        simp only [Option.map_some', Option.some_bind, Option.bind_some, Option.some.injEq] at hi
        rcases (List.get?_zip_eq_some _ _ p i).mp hz with ⟨hdi, hsi⟩
        have hrowmem : p.2 ∈ b.states := List.get?_mem hsi
        have hrowbound := hbound p.2 hrowmem
        cases hp1 : p.1 with
        | true =>
          rw [hp1] at hi
          simp only [eq_self_iff_true, if_true] at hi
          rw [← hi] at hx
          exact hrowbound x hx
        | false =>
          rw [hp1] at hi
          simp only [Bool.false_eq_true, if_false] at hi
          rw [hp1] at hdi
          have hold : b.already_dones.get? i = some false :=
            stepDones_get?_false cfg b as i hdi
          have hnostop : a ≠ cfg.n_actions - 1 :=
            stepDones_get?_false_stop cfg b as i a hdi haq
          have hmrow : b.masks.get? i = some (maskRowF cfg p.2) := by
            rw [hm]
            exact make_masks_get? cfg b.states i p.2 hsi
          have hentry : (maskRowF cfg p.2).get? a = some true :=
            validate_filter_ok_entry b.already_dones b.masks as hmlen halen'
              hv i (maskRowF cfg p.2) a hold hmrow haq
          rw [← hi] at hx
          rw [incAt] at hx
          rcases Nat.lt_trichotomy a p.2.length with hlt | heq | hgt
          · have hentry' := hentry
            rw [maskRowF_get?_lt cfg p.2 a hlt] at hentry'
            have hne : p.2.getD a 0 ≠ (cfg.height : Int) - 1 := by
              have := Option.some.inj hentry'
              exact bne_iff_ne.mp this
            have hgetb := hrowbound (p.2.getD a 0) (getD_mem p.2 a hlt)
            rcases mem_set_cases p.2 a _ x hx with hxm | hxe
            · exact hrowbound x hxm
            · constructor <;> [skip; skip] <;> omega
          · rw [List.set_eq_of_length_le (by omega)] at hx
            exact hrowbound x hx
          · exfalso
            have : (maskRowF cfg p.2).get? a = none := by
              rw [List.get?_eq_none, maskRowF_length]
              omega
            rw [this] at hentry
            cases hentry
  · obtain ⟨hv, hr⟩ := (backward_step_ok_iff cfg b as _).mp hok
    cases hr
    intro r hrmem x hx
    show 0 ≤ x ∧ x ≤ (cfg.height : Int) - 1
    rcases List.mem_iff_get?.mp hrmem with ⟨i, hi⟩
    rw [backwardStates, List.get?_zipWith'] at hi
    cases hz : (b.already_dones.zip b.states).get? i with
    | none => rw [hz] at hi; cases hi
    | some p =>
      rw [hz] at hi
      cases haq : as.get? i with
      | none => rw [haq] at hi; cases hi
      | some a =>
        rw [haq] at hi
        simp only [Option.map_some', Option.some_bind, Option.bind_some, Option.some.injEq] at hi
        rcases (List.get?_zip_eq_some _ _ p i).mp hz with ⟨hdi, hsi⟩
        have hrowmem : p.2 ∈ b.states := List.get?_mem hsi
        have hrowbound := hbound p.2 hrowmem
        cases hp1 : p.1 with
        | true =>
          rw [hp1] at hi
          simp only [eq_self_iff_true, if_true] at hi
          rw [← hi] at hx
          exact hrowbound x hx
        | false =>
          rw [hp1] at hi
          simp only [Bool.false_eq_true, if_false] at hi
          rw [hp1] at hdi
          have hmrow : b.backward_masks.get? i
              = some (p.2.map (fun y => y != (0 : Int))) := by
            rw [hbm]
            exact make_backward_masks_get? cfg b.states i p.2 hsi
          have hentry : (p.2.map (fun y => y != (0 : Int))).get? a = some true :=
            validate_filter_ok_entry b.already_dones b.backward_masks as
              hbmlen halen' hv i _ a hdi hmrow haq
          rw [← hi] at hx
          rw [decAt] at hx
          by_cases hlt : a < p.2.length
          · have hentry' := hentry
            rw [backRow_get?_lt p.2 a hlt] at hentry'
            have hne : p.2.getD a 0 ≠ 0 := by
              have := Option.some.inj hentry'
              exact bne_iff_ne.mp this
            have hgetb := hrowbound (p.2.getD a 0) (getD_mem p.2 a hlt)
            rcases mem_set_cases p.2 a _ x hx with hxm | hxe
            · exact hrowbound x hxm
            · constructor <;> omega
          · exfalso
            have : (p.2.map (fun y => y != (0 : Int))).get? a = none := by
              rw [List.get?_eq_none, List.length_map]
              omega
            rw [this] at hentry
            cases hentry

/-- Witness for `coords_stay_in_grid` at a concrete input: in the demo
batch after one step, the coordinate `1` of the row `[1, 0]` lies within
`[0, 2]`. -/
theorem coords_stay_in_grid_witness :
    0 ≤ (1 : Int) ∧ (1 : Int) ≤ (cfg3.height : Int) - 1 := by
  have h : step cfg3 demoB0 [0, 1, 1]
      = .ok (stepRun cfg3 demoB0 [0, 1, 1],
             stepDones cfg3 demoB0 [0, 1, 1]) := by decide
  exact coords_stay_in_grid cfg3 demoB0 [0, 1, 1] _ _ rfl rfl (by decide)
    (by decide) (by decide) (Or.inl h) [1, 0] (by decide) 1 (by decide)

/-! ## Mixed-radix encoding (`get_states_indices`) -/

section Encoding

theorem encLE_append_single (h : Nat) :
    ∀ (l : List Int) (x : Int),
      encLE h (l ++ [x]) = encLE h l + (h : Int) ^ l.length * x
  | [], x => by simp [encLE]
  | d :: l, x => by
    rw [List.cons_append, encLE, encLE, encLE_append_single h l x,
      List.length_cons]
    ring

theorem mixedRadix_eq_encLE (h : Nat) :
    ∀ (s : List Int),
      (List.zipWith (fun (p : Nat) (x : Int) => ((h : Int) ^ p) * x)
        ((List.range s.length).map (fun i => s.length - 1 - i)) s).sum
        = encLE h s.reverse
  | [] => by simp [encLE]
  | x :: t => by
    have hmap : (List.range (x :: t).length).map
        (fun i => (x :: t).length - 1 - i)
        = t.length :: (List.range t.length).map (fun i => t.length - 1 - i) := by
      rw [List.length_cons, List.range_succ_eq_map, List.map_cons, List.map_map]
      refine congrArg₂ _ (by omega) (congrArg₂ _ ?_ rfl)
      funext i
      simp only [Function.comp_apply]
      omega
    rw [hmap, List.zipWith_cons_cons, List.sum_cons, mixedRadix_eq_encLE h t,
      List.reverse_cons, encLE_append_single h t.reverse x,
      List.length_reverse]
    ring

theorem gsi_eq_encLE (cfg : GridCfg) (s : List Int)
    (hlen : s.length = cfg.ndim) :
    get_states_indices cfg s = encLE cfg.height s.reverse := by
  rw [get_states_indices, ← hlen]
  exact mixedRadix_eq_encLE cfg.height s

theorem encLE_bounds (h : Nat) :
    ∀ (ds : List Int), (∀ d ∈ ds, 0 ≤ d ∧ d < (h : Int)) →
      0 ≤ encLE h ds ∧ encLE h ds < (h : Int) ^ ds.length
  | [], _ => by simp [encLE]
  | d :: ds, hb => by
    have hd := hb d (List.mem_cons_self d ds)
    have hds := encLE_bounds h ds
      (fun y hy => hb y (List.mem_cons_of_mem d hy))
    have hpos : (0 : Int) < (h : Int) := by omega
    rw [encLE, List.length_cons]
    have hmn : 0 ≤ (h : Int) * encLE h ds :=
      mul_nonneg (by omega) hds.1
    constructor
    · linarith [hd.1]
    · have h1 : (d : Int) + (h : Int) * encLE h ds
          < (h : Int) * (encLE h ds + 1) := by
        rw [mul_add, mul_one]
        linarith [hd.2]
      have h2 : encLE h ds + 1 ≤ (h : Int) ^ ds.length :=
        Int.add_one_le_iff.mpr hds.2
      calc (d : Int) + (h : Int) * encLE h ds
          < (h : Int) * (encLE h ds + 1) := h1
        _ ≤ (h : Int) * (h : Int) ^ ds.length :=
            mul_le_mul_of_nonneg_left h2 (by omega)
        _ = (h : Int) ^ (ds.length + 1) := by ring

theorem encLE_inj (h : Nat) :
    ∀ (ds ds' : List Int), ds.length = ds'.length →
      (∀ d ∈ ds, 0 ≤ d ∧ d < (h : Int)) →
      (∀ d ∈ ds', 0 ≤ d ∧ d < (h : Int)) →
      encLE h ds = encLE h ds' → ds = ds'
  | [], [], _, _, _, _ => rfl
  | [], d' :: ds', hl, _, _, _ => by simp at hl
  | d :: ds, [], hl, _, _, _ => by simp at hl
  | d :: ds, d' :: ds', hl, hb, hb', he => by
    have hd := hb d (List.mem_cons_self d ds)
    have hd' := hb' d' (List.mem_cons_self d' ds')
    rw [encLE, encLE] at he
    have htail : encLE h ds = encLE h ds' := by
      by_contra hne
      have hmul : (h : Int) * (encLE h ds - encLE h ds') = d' - d := by ring_nf; linarith
      have h1 : 1 ≤ |encLE h ds - encLE h ds'| :=
        Int.one_le_abs (sub_ne_zero.mpr hne)
      have h2 : |(d' : Int) - d| = (h : Int) * |encLE h ds - encLE h ds'| := by
        rw [← hmul, abs_mul, abs_of_nonneg (show (0 : Int) ≤ (h : Int) by omega)]
      have h3 : (h : Int) * 1 ≤ (h : Int) * |encLE h ds - encLE h ds'| :=
        mul_le_mul_of_nonneg_left h1 (by omega)
      have h4 : |(d' : Int) - d| < (h : Int) := abs_sub_lt_iff.mpr ⟨by omega, by omega⟩
      omega
    have hhead : d = d' := by
      rw [htail] at he
      linarith
    rw [hhead, encLE_inj h ds ds' (by simpa using hl)
      (fun y hy => hb y (List.mem_cons_of_mem d hy))
      (fun y hy => hb' y (List.mem_cons_of_mem d' hy)) htail]

theorem encLE_surj (h : Nat) :
    ∀ (n : Nat) (k : Int), 0 ≤ k → k < (h : Int) ^ n →
      ∃ ds : List Int, ds.length = n ∧ (∀ d ∈ ds, 0 ≤ d ∧ d < (h : Int))
        ∧ encLE h ds = k
  | 0, k, hk0, hk1 => by
    refine ⟨[], rfl, by simp, ?_⟩
    rw [pow_zero] at hk1
    rw [encLE]
    omega
  | n + 1, k, hk0, hk1 => by
    have hpos : (0 : Int) < (h : Int) := by
      by_contra hc
      push_neg at hc
      have hz : (h : Int) = 0 := le_antisymm hc (by positivity)
      rw [hz, zero_pow (by omega)] at hk1
      omega
    have hdiv0 : 0 ≤ k / (h : Int) := Int.ediv_nonneg hk0 (by omega)
    have hdiv1 : k / (h : Int) < (h : Int) ^ n := by
      rw [Int.ediv_lt_iff_lt_mul hpos]
      calc k < (h : Int) ^ (n + 1) := hk1
        _ = (h : Int) ^ n * (h : Int) := by ring
    obtain ⟨ds, hlen, hb, he⟩ := encLE_surj h n (k / (h : Int)) hdiv0 hdiv1
    refine ⟨k % (h : Int) :: ds, by simp [hlen], ?_, ?_⟩
    · intro d hd
      rcases List.mem_cons.mp hd with rfl | hd
      · exact ⟨Int.emod_nonneg k (by omega), Int.emod_lt_of_pos k hpos⟩
      · exact hb d hd
    · rw [encLE, he, Int.emod_add_ediv k (h : Int)]

end Encoding

/-- **C6.** `get_states_indices` interprets each state vector as a
mixed-radix number in base `height`, most-significant coordinate first
(coordinate `i` is weighted `height ^ (ndim - 1 - i)`, the last
coordinate is weighted `1` — this is the definition embedded from the
source); for every state with all coordinates in `[0, height-1]` the
result lies in `[0, height ^ ndim)`, the map is injective there, and
every integer in `[0, height ^ ndim)` is attained — a bijection between
the full state space and `[0, height ^ ndim)`. -/
theorem get_states_indices_bijection (cfg : GridCfg) :
    (∀ s : List Int, s.length = cfg.ndim →
        (∀ x ∈ s, 0 ≤ x ∧ x < (cfg.height : Int)) →
        0 ≤ get_states_indices cfg s
          ∧ get_states_indices cfg s < (cfg.height : Int) ^ cfg.ndim)
    ∧ (∀ s t : List Int, s.length = cfg.ndim → t.length = cfg.ndim →
        (∀ x ∈ s, 0 ≤ x ∧ x < (cfg.height : Int)) →
        (∀ x ∈ t, 0 ≤ x ∧ x < (cfg.height : Int)) →
        get_states_indices cfg s = get_states_indices cfg t → s = t)
    ∧ (∀ k : Int, 0 ≤ k → k < (cfg.height : Int) ^ cfg.ndim →
        ∃ s : List Int, s.length = cfg.ndim
          ∧ (∀ x ∈ s, 0 ≤ x ∧ x < (cfg.height : Int))
          ∧ get_states_indices cfg s = k) := by
  refine ⟨?_, ?_, ?_⟩
  · intro s hlen hb
    rw [gsi_eq_encLE cfg s hlen]
    have := encLE_bounds cfg.height s.reverse
      (fun d hd => hb d (List.mem_reverse.mp hd))
    rw [List.length_reverse, hlen] at this
    exact this
  · intro s t hs ht hbs hbt he
    rw [gsi_eq_encLE cfg s hs, gsi_eq_encLE cfg t ht] at he
    have := encLE_inj cfg.height s.reverse t.reverse
      (by rw [List.length_reverse, List.length_reverse, hs, ht])
      (fun d hd => hbs d (List.mem_reverse.mp hd))
      (fun d hd => hbt d (List.mem_reverse.mp hd)) he
    have h2 := congrArg List.reverse this
    rwa [List.reverse_reverse, List.reverse_reverse] at h2
  · intro k hk0 hk1
    obtain ⟨ds, hlen, hb, he⟩ := encLE_surj cfg.height cfg.ndim k hk0 hk1
    refine ⟨ds.reverse, by rw [List.length_reverse, hlen], ?_, ?_⟩
    · exact fun x hx => hb x (List.mem_reverse.mp hx)
    · rw [gsi_eq_encLE cfg ds.reverse (by rw [List.length_reverse, hlen]),
        List.reverse_reverse, he]

/-- Witness for `get_states_indices_bijection` at a concrete input: with
the demo configuration (`ndim=2, height=3`), the state `[2, 1]` maps into
`[0, 9)`. -/
theorem get_states_indices_bijection_witness :
    0 ≤ get_states_indices cfg3 [2, 1]
      ∧ get_states_indices cfg3 [2, 1] < (cfg3.height : Int) ^ cfg3.ndim :=
  (get_states_indices_bijection cfg3).1 [2, 1] (by decide) (by decide)

section RoundTripLemmas

theorem runBackward_append (cfg : GridCfg) :
    ∀ (l₁ l₂ : List (List Nat)) (b : StatesBatch),
      runBackward cfg b (l₁ ++ l₂)
        = (runBackward cfg b l₁).bind (fun c => runBackward cfg c l₂)
  | [], l₂, b => by rw [List.nil_append, runBackward]; rfl
  | as :: l₁, l₂, b => by
    rw [List.cons_append, runBackward, runBackward]
    cases hb : backward_step cfg b as with
    | error e => rfl
    | ok r =>
      show runBackward cfg r.1 (l₁ ++ l₂) = _
      rw [runBackward_append cfg l₁ l₂ r.1]
      rfl

theorem mem_zipWith_exists {α β γ : Type} (f : α → β → γ) (l₁ : List α)
    (l₂ : List β) (c : γ) (hc : c ∈ List.zipWith f l₁ l₂) :
    ∃ i a b₀, l₁.get? i = some a ∧ l₂.get? i = some b₀ ∧ c = f a b₀ := by
  rcases List.mem_iff_get?.mp hc with ⟨i, hi⟩
  rw [List.get?_zipWith'] at hi
  cases h₁ : l₁.get? i with
  | none => rw [h₁] at hi; cases hi
  | some a =>
    rw [h₁] at hi
    cases h₂ : l₂.get? i with
    | none => rw [h₂] at hi; cases hi
    | some b₀ =>
      rw [h₂] at hi
      simp only [Option.map_some', Option.some_bind, Option.some.injEq] at hi
      exact ⟨i, a, b₀, h₁, h₂, hi.symm⟩

theorem sum_set (v : Int) :
    ∀ (row : List Int) (a : Nat), a < row.length →
      (row.set a v).sum = row.sum - row.getD a 0 + v
  | [], a, ha => by simp at ha
  | x :: t, 0, _ => by
    simp only [List.set, List.sum_cons, List.getD_cons_zero]
    ring
  | x :: t, a + 1, ha => by
    simp only [List.set, List.sum_cons, List.getD_cons_succ]
    rw [sum_set v t a (by simpa using ha)]
    ring

theorem sum_incAt (row : List Int) (a : Nat) (ha : a < row.length) :
    (incAt row a).sum = row.sum + 1 := by
  rw [incAt, sum_set _ row a ha]
  ring

theorem set_getD_self :
    ∀ (row : List Int) (a : Nat), a < row.length →
      row.set a (row.getD a 0) = row
  | [], a, ha => by simp at ha
  | x :: t, 0, _ => by simp [List.set]
  | x :: t, a + 1, ha => by
    simp only [List.set, List.getD_cons_succ]
    rw [set_getD_self t a (by simpa using ha)]

theorem decAt_incAt (row : List Int) (a : Nat) (ha : a < row.length) :
    decAt (incAt row a) a = row := by
  rw [decAt, incAt, getD_set_self row a _ ha, List.set_set]
  have h1 : row.getD a 0 + 1 - 1 = row.getD a 0 := by ring
  rw [h1, set_getD_self row a ha]

theorem zipWith_stepDones_nostop (k : Nat) :
    ∀ (n : Nat) (as : List Nat), as.length = n → (∀ a ∈ as, a ≠ k) →
      List.zipWith (fun d a => d || (a == k)) (List.replicate n false) as
        = List.replicate n false
  | 0, [], _, _ => rfl
  | 0, a :: t, hl, _ => by simp at hl
  | n + 1, [], hl, _ => by simp at hl
  | n + 1, a :: t, hl, hns => by
    rw [List.replicate_succ, List.zipWith_cons_cons,
      zipWith_stepDones_nostop k n t (by simpa using hl)
        (fun y hy => hns y (List.mem_cons_of_mem a hy))]
    have hbeq : (a == k) = false :=
      beq_eq_false_iff_ne.mpr (hns a (List.mem_cons_self a t))
    rw [hbeq]
    rfl

theorem zipWith_masked_replicate_false {α β : Type} (g : α → β → α) :
    ∀ (n : Nat) (l : List α) (as : List β), l.length = n → as.length = n →
      List.zipWith
        (fun (p : Bool × α) (a : β) => if p.1 then p.2 else g p.2 a)
        ((List.replicate n false).zip l) as
        = List.zipWith g l as
  | 0, [], [], _, _ => rfl
  | 0, x :: t, as, hl, _ => by simp at hl
  | 0, [], a :: t, _, ha => by simp at ha
  | n + 1, [], as, hl, _ => by simp at hl
  | n + 1, x :: t, [], _, ha => by simp at ha
  | n + 1, x :: l, a :: as, hl, ha => by
    rw [List.replicate_succ, List.zip_cons_cons, List.zipWith_cons_cons,
      List.zipWith_cons_cons,
      zipWith_masked_replicate_false g n l as (by simpa using hl)
        (by simpa using ha)]
    simp only [Bool.false_eq_true, if_false]

theorem zipWith_or_sum_replicate_false :
    ∀ (n : Nat) (l : List (List Int)), l.length = n →
      List.zipWith (fun d (row : List Int) => d || (row.sum == 0))
        (List.replicate n false) l
        = l.map (fun row => row.sum == 0)
  | 0, [], _ => rfl
  | 0, x :: t, hl => by simp at hl
  | n + 1, [], hl => by simp at hl
  | n + 1, x :: l, hl => by
    rw [List.replicate_succ, List.zipWith_cons_cons, List.map_cons,
      zipWith_or_sum_replicate_false n l (by simpa using hl)]
    rfl

theorem map_sum_ne_zero (l : List (List Int)) (n : Nat) (hlen : l.length = n)
    (h : ∀ r ∈ l, r.sum ≠ 0) :
    l.map (fun r => (r.sum == 0)) = List.replicate n false := by
  subst hlen
  induction l with
  | nil => rfl
  | cons x t ih =>
    rw [List.map_cons, List.length_cons, List.replicate_succ,
      ih (fun r hr => h r (List.mem_cons_of_mem x hr))]
    have hbeq : (x.sum == 0) = false :=
      beq_eq_false_iff_ne.mpr (h x (List.mem_cons_self x t))
    rw [hbeq]

end RoundTripLemmas

section RoundTripMain

theorem step_nostop (cfg : GridCfg) (n : Nat) (b : StatesBatch) (as : List Nat)
    (b₁ : StatesBatch) (ds : List Bool) (hg : Good cfg n b)
    (hl : as.length = n) (hns : ∀ a ∈ as, a ≠ cfg.ndim)
    (hok : step cfg b as = .ok (b₁, ds)) :
    Good cfg n b₁
    ∧ b₁.states = List.zipWith incAt b.states as
    ∧ (∀ i row a, b.states.get? i = some row → as.get? i = some a →
        a < row.length)
    ∧ (∀ r ∈ b₁.states, r.sum ≠ 0) := by
  obtain ⟨hslen, hrlen, hpos, hm, hbm, hdones⟩ := hg
  obtain ⟨hv, hr⟩ := (step_ok_iff cfg b as _).mp hok
  cases hr
  have hk : cfg.n_actions - 1 = cfg.ndim := by
    rw [GridCfg.n_actions]
    omega
  have hdones_eq : stepDones cfg b as = List.replicate n false := by
    rw [stepDones, hdones]
    simp only [hk]
    exact zipWith_stepDones_nostop cfg.ndim n as hl hns
  have hstates_eq : stepStates cfg b as = List.zipWith incAt b.states as := by
    rw [stepStates, hdones_eq]
    exact zipWith_masked_replicate_false incAt n b.states as hslen hl
  have hval : ∀ i row a, b.states.get? i = some row → as.get? i = some a →
      (maskRowF cfg row).get? a = some true := by
    intro i row a hrow ha
    have hin : i < n := by
      rcases List.get?_eq_some.mp hrow with ⟨hlt0, -⟩
      omega
    refine validate_filter_ok_entry b.already_dones b.masks as ?_ ?_ hv i
      (maskRowF cfg row) a ?_ ?_ ha
    · rw [hm, make_masks, List.length_map, hdones, List.length_replicate, hslen]
    · rw [hdones, List.length_replicate, hl]
    · rw [hdones]
      exact replicate_get? n i false hin
    · rw [hm]
      exact make_masks_get? cfg b.states i row hrow
  have hlt : ∀ i row a, b.states.get? i = some row → as.get? i = some a →
      a < row.length := by
    intro i row a hrow ha
    have he := hval i row a hrow ha
    have hlen2 : a < (maskRowF cfg row).length := by
      by_contra hc
      push_neg at hc
      rw [List.get?_eq_none.mpr hc] at he
      cases he
    rw [maskRowF_length] at hlen2
    have hne : a ≠ row.length := by
      rw [hrlen row (List.get?_mem hrow)]
      exact hns a (List.get?_mem ha)
    omega
  have hglen : (stepStates cfg b as).length = n := by
    rw [hstates_eq, List.length_zipWith, hslen, hl]
    exact Nat.min_self n
  refine ⟨⟨hglen, ?_, ?_, rfl, rfl, hdones_eq⟩, hstates_eq, hlt, ?_⟩
  · intro r hr
    rw [hstates_eq] at hr
    rcases mem_zipWith_exists incAt b.states as r hr with ⟨i, row, a, hrow, ha, rfl⟩
    rw [incAt, List.length_set]
    exact hrlen row (List.get?_mem hrow)
  · intro r hr x hx
    rw [hstates_eq] at hr
    rcases mem_zipWith_exists incAt b.states as r hr with ⟨i, row, a, hrow, ha, rfl⟩
    have hrowpos := hpos row (List.get?_mem hrow)
    rw [incAt] at hx
    rcases mem_set_cases row a _ x hx with hxm | hxe
    · exact hrowpos x hxm
    · have := hrowpos (row.getD a 0) (getD_mem row a (hlt i row a hrow ha))
      omega
  · intro r hr
    show r.sum ≠ 0
    rw [hstates_eq] at hr
    rcases mem_zipWith_exists incAt b.states as r hr with ⟨i, row, a, hrow, ha, rfl⟩
    rw [sum_incAt row a (hlt i row a hrow ha)]
    have hrowpos := hpos row (List.get?_mem hrow)
    have hsum : 0 ≤ row.sum := List.sum_nonneg hrowpos
    omega

theorem backward_undo (cfg : GridCfg) (n : Nat) (b c : StatesBatch)
    (as : List Nat) (hg : Good cfg n b) (hl : as.length = n)
    (hlt : ∀ i row a, b.states.get? i = some row → as.get? i = some a →
        a < row.length)
    (hc_states : c.states = List.zipWith incAt b.states as)
    (hc_bmasks : c.backward_masks = make_backward_masks cfg c.states)
    (hc_dones : c.already_dones = List.replicate n false) :
    backward_step cfg c as
      = .ok ({ states := b.states, masks := make_masks cfg b.states,
               backward_masks := make_backward_masks cfg b.states,
               already_dones := b.states.map (fun r => r.sum == 0) },
             b.states.map (fun r => r.sum == 0)) := by
  obtain ⟨hslen, hrlen, hpos, hm, hbm, hdones⟩ := hg
  have hcslen : c.states.length = n := by
    rw [hc_states, List.length_zipWith, hslen, hl]
    exact Nat.min_self n
  have hcrow : ∀ i p, c.states.get? i = some p →
      ∃ row a, b.states.get? i = some row ∧ as.get? i = some a
        ∧ p = incAt row a := by
    intro i p hp
    rw [hc_states, List.get?_zipWith'] at hp
    cases h₁ : b.states.get? i with
    | none => rw [h₁] at hp; cases hp
    | some row =>
      rw [h₁] at hp
      cases h₂ : as.get? i with
      | none => rw [h₂] at hp; cases hp
      | some a =>
        rw [h₂] at hp
        simp only [Option.map_some', Option.some_bind, Option.some.injEq] at hp
        exact ⟨row, a, rfl, rfl, hp.symm⟩
  have hvb : validate c.backward_masks as = .ok () := by
    rw [validate_ok_iff]
    intro q hq
    rcases (mem_zip_iff _ _ q).mp hq with ⟨i, hbm_i, ha_i⟩
    rw [hc_bmasks, make_backward_masks, List.get?_map] at hbm_i
    cases hcs_i : c.states.get? i with
    | none => rw [hcs_i] at hbm_i; cases hbm_i
    | some crow =>
      rw [hcs_i] at hbm_i
      simp only [Option.map_some', Option.some.injEq] at hbm_i
      rcases hcrow i crow hcs_i with ⟨row, a, hrow, ha, rfl⟩
      have hq2 : q.2 = a := by
        rw [ha_i] at ha
        exact Option.some.inj ha
      have hlt' := hlt i row a hrow ha
      have hlen_inc : a < (incAt row a).length := by
        rw [incAt, List.length_set]
        exact hlt'
      rw [← hbm_i, hq2, backRow_get?_lt _ a hlen_inc, incAt_getD row a hlt']
      have hgd0 : 0 ≤ row.getD a 0 :=
        hpos row (List.get?_mem hrow) _ (getD_mem row a hlt')
      have hne : ((row.getD a 0 + 1 : Int) != 0) = true :=
        bne_iff_ne.mpr (by omega)
      rw [hne]
  have hvb' : validate (filterByNot c.already_dones c.backward_masks)
      (filterByNot c.already_dones as) = .ok () := by
    rw [hc_dones,
      filterByNot_replicate_false _ n
        (by rw [hc_bmasks, make_backward_masks, List.length_map, hcslen]),
      filterByNot_replicate_false _ n hl]
    exact hvb
  have h0 := (backward_step_ok_iff cfg c as _).mpr ⟨hvb', rfl⟩
  have hbs_eq : backwardStates cfg c as = b.states := by
    rw [backwardStates, hc_dones, ← hcslen,
      zipWith_masked_replicate_false decAt c.states.length c.states as rfl
        (by omega)]
    apply List.ext_get?
    intro i
    rw [List.get?_zipWith']
    cases hcs_i : c.states.get? i with
    | none =>
      have hni : n ≤ i := by
        rw [← hcslen]
        exact List.get?_eq_none.mp hcs_i
      rw [List.get?_eq_none.mpr (by omega : b.states.length ≤ i)]
      simp
    | some crow =>
      rcases hcrow i crow hcs_i with ⟨row, a, hrow, ha, rfl⟩
      rw [ha, hrow]
      simp only [Option.map_some', Option.some_bind]
      rw [decAt_incAt row a (hlt i row a hrow ha)]
  have hbd_eq : backwardDones cfg c as = b.states.map (fun r => r.sum == 0) := by
    rw [backwardDones, hc_dones, hbs_eq,
      zipWith_or_sum_replicate_false n b.states hslen]
  rw [hbs_eq, hbd_eq] at h0
  exact h0

theorem roundtrip_aux (cfg : GridCfg) (n : Nat) :
    ∀ (ass : List (List Nat)) (b b' : StatesBatch),
      Good cfg n b →
      (∀ as ∈ ass, as.length = n ∧ ∀ a ∈ as, a ≠ cfg.ndim) →
      runForward cfg b ass = .ok b' →
      Good cfg n b'
      ∧ ∃ c', runBackward cfg b' ass.reverse = .ok c'
          ∧ c'.states = b.states
          ∧ c'.masks = make_masks cfg c'.states
          ∧ c'.backward_masks = make_backward_masks cfg c'.states
          ∧ c'.already_dones
              = (if ass.isEmpty then List.replicate n false
                 else b.states.map (fun r => r.sum == 0))
  | [], b, b', hg, _, hfwd => by
    rw [runForward] at hfwd
    cases hfwd
    refine ⟨hg, b, rfl, rfl, hg.2.2.2.1, hg.2.2.2.2.1, ?_⟩
    simp only [List.isEmpty_nil, eq_self_iff_true, if_true]
    exact hg.2.2.2.2.2
  | as :: rest, b, b', hg, hcond, hfwd => by
    rw [runForward] at hfwd
    cases hstep : step cfg b as with
    | error e =>
      rw [hstep] at hfwd
      cases hfwd
    | ok r =>
      rw [hstep] at hfwd
      obtain ⟨b₁, ds⟩ := r
      have hfwd' : runForward cfg b₁ rest = .ok b' := hfwd
      obtain ⟨hcas, hcrest⟩ :
          (as.length = n ∧ ∀ a ∈ as, a ≠ cfg.ndim)
            ∧ ∀ as' ∈ rest, as'.length = n ∧ ∀ a ∈ as', a ≠ cfg.ndim :=
        ⟨hcond as (List.mem_cons_self as rest),
         fun as' h => hcond as' (List.mem_cons_of_mem as h)⟩
      obtain ⟨hg₁, hb₁s, hlt, hsums⟩ :=
        step_nostop cfg n b as b₁ ds hg hcas.1 hcas.2 hstep
      obtain ⟨hg', c₁, hrb₁, hc₁s, hc₁m, hc₁bm, hc₁d⟩ :=
        roundtrip_aux cfg n rest b₁ b' hg₁ hcrest hfwd'
      have hc₁d' : c₁.already_dones = List.replicate n false := by
        rw [hc₁d]
        cases hrest : rest.isEmpty with
        | true => simp
        | false =>
          simp only [Bool.false_eq_true, if_false]
          exact map_sum_ne_zero b₁.states n hg₁.1 hsums
      have hundo := backward_undo cfg n b c₁ as hg hcas.1 hlt
        (by rw [hc₁s, hb₁s]) hc₁bm hc₁d'
      refine ⟨hg',
        ⟨b.states, make_masks cfg b.states, make_backward_masks cfg b.states,
         b.states.map (fun r => r.sum == 0)⟩, ?_, rfl, rfl, rfl, ?_⟩
      · rw [List.reverse_cons, runBackward_append cfg rest.reverse [as] b',
          hrb₁]
        show runBackward cfg c₁ [as] = _
        rw [runBackward, hundo]
        rfl
      · simp only [List.isEmpty_cons, Bool.false_eq_true, if_false]
end RoundTripMain

/-- **C3.** Round trip: every (non-empty) trajectory produced entirely by
legal forward steps from the all-origin batch, never choosing the stop
action, is undone by applying the exact reverse sequence of backward
actions via `backward_step`: the batch returns to the all-zero origin
and the final done vector (the `already_dones` of the resulting batch,
as returned by the last `backward_step`) is all `true`. -/
theorem forward_backward_roundtrip (cfg : GridCfg) (n : Nat)
    (ass : List (List Nat)) (b' : StatesBatch)
    (hne : ass ≠ [])
    (hlens : ∀ as ∈ ass, as.length = n)
    (hnostop : ∀ as ∈ ass, ∀ a ∈ as, a ≠ cfg.ndim)
    (hfwd : runForward cfg (originBatch cfg n) ass = .ok b') :
    ∃ c', runBackward cfg b' ass.reverse = .ok c'
      ∧ c'.states = List.replicate n (List.replicate cfg.ndim 0)
      ∧ c'.already_dones = List.replicate n true := by
  have hgood : Good cfg n (originBatch cfg n) := by
    refine ⟨by simp [originBatch, fromStates], ?_, ?_, rfl, rfl, ?_⟩
    · intro r hr
      rw [List.eq_of_mem_replicate hr]
      exact List.length_replicate cfg.ndim 0
    · intro r hr x hx
      rw [List.eq_of_mem_replicate hr] at hx
      rw [List.eq_of_mem_replicate hx]
    · show List.replicate (List.replicate n (List.replicate cfg.ndim (0 : Int))).length false
        = List.replicate n false
      rw [List.length_replicate]
  obtain ⟨-, c', hrb, hcs, -, -, hcd⟩ :=
    roundtrip_aux cfg n ass (originBatch cfg n) b' hgood
      (fun as has => ⟨hlens as has, hnostop as has⟩) hfwd
  refine ⟨c', hrb, by rw [hcs]; rfl, ?_⟩
  rw [hcd]
  cases ass with
  | nil => exact absurd rfl hne
  | cons as rest =>
    simp only [List.isEmpty_cons, Bool.false_eq_true, if_false]
    show (List.replicate n (List.replicate cfg.ndim (0 : Int))).map
        (fun r => r.sum == 0) = List.replicate n true
    rw [List.map_replicate]
    have hz : ((List.replicate cfg.ndim (0 : Int)).sum == 0) = true := by
      simp
    rw [hz]

/-- Witness for `forward_backward_roundtrip` at a concrete input: one
element, one forward step with action `0`, then the reversed backward
action returns to the origin with done `true`. -/
theorem forward_backward_roundtrip_witness :
    ∃ c', runBackward cfg3 (stepRun cfg3 (originBatch cfg3 1) [0])
        ([[0]] : List (List Nat)).reverse = .ok c'
      ∧ c'.states = List.replicate 1 (List.replicate cfg3.ndim 0)
      ∧ c'.already_dones = List.replicate 1 true :=
  forward_backward_roundtrip cfg3 1 [[0]]
    (stepRun cfg3 (originBatch cfg3 1) [0]) (by decide) (by decide)
    (by decide) (by decide)

end HyperGridSpec
